import Mathlib

/-
  Verification development for the sqlite3-helper library
  (src/database.js and its collaborators).

  The development shallowly embeds:
  - the migration source reader (database.js lines 425-454),
  - the migration ledger/planner/executor (database.js lines 456-507),
  - the connection lifecycle manager (database.js lines 19-57),
  - the close retry loop (database.js lines 79-101),
  - the module-level singleton construction (database.js lines 11-30).

  External collaborators (the sqlite3 native driver, the filesystem, the
  await-lock dependency) are modelled as explicit environments or small
  state machines; each such model is documented at its definition.
-/

set_option maxHeartbeats 1000000
set_option maxRecDepth 4000

/- ===== Stable insertion sort keyed by a Nat, as performed by
   JavaScript Array.prototype.sort with the comparators
   (a, b) => Math.sign(a.id - b.id)  (ascending, database.js line 433/466) and
   (a, b) => Math.sign(b.id - a.id)  (descending, database.js line 472).
   Array.prototype.sort is stable. ===== -/

def insAsc (key : α → Nat) (e : α) : List α → List α
  | [] => [e]
  | x :: xs => if key x ≤ key e then x :: insAsc key e xs else e :: x :: xs

def sortAscBy (key : α → Nat) (l : List α) : List α :=
  l.foldl (fun acc e => insAsc key e acc) []

def insDesc (key : α → Nat) (e : α) : List α → List α
  | [] => [e]
  | x :: xs => if key e ≤ key x then x :: insDesc key e xs else e :: x :: xs

def sortDescBy (key : α → Nat) (l : List α) : List α :=
  l.foldl (fun acc e => insDesc key e acc) []

/- ===== Migration source reader (database.js lines 425-438).

   fs.readdirSync(location) lists the directory (throwing ENOENT when the
   directory is missing); each name is matched against the regular
   expression  ^(\d+).(.*?)\.sql$  ; non-matching names are dropped and the
   survivors are sorted ascending by id. ===== -/

structure MigEntry where
  id : Nat
  name : String
  filename : String
deriving DecidableEq, Repr

def digitPrefixLen : List Char → Nat
  | [] => 0
  | c :: cs => if c.isDigit then digitPrefixLen cs + 1 else 0

def natOfDigits (cs : List Char) : Nat :=
  cs.foldl (fun acc c => acc * 10 + (c.toNat - 48)) 0

/-- Matcher for the filename pattern  ^(\d+).(.*?)\.sql$  (database.js line
430).  The greedy digit group takes the longest digit run that still leaves
one separator character (the unescaped dot matches any character) and the
literal suffix .sql; the lazy middle group is then forced to span up to the
final .sql.  Filenames are assumed newline-free (true on every real
filesystem), so the regex dot constraints are vacuous. -/
def matchMigrationFilename (s : String) : Option MigEntry :=
  let cs := s.toList
  let len := cs.length
  let d := digitPrefixLen cs
  if 1 ≤ d ∧ 6 ≤ len ∧ cs.drop (len - 4) = ['.', 's', 'q', 'l'] then
    let k := min d (len - 5)
    some { id := natOfDigits (cs.take k),
           name := String.mk ((cs.drop (k + 1)).take (len - k - 5)),
           filename := s }
  else none

/-- Directory listing to sorted migration entries (database.js lines
430-433): map the filename matcher, drop failures, sort ascending by id. -/
def readMigrationEntries (listing : List String) : List MigEntry :=
  sortAscBy MigEntry.id (listing.filterMap matchMigrationFilename)

/- ===== Migration file body parsing (database.js lines 443-454).

   data.split(/^--\s+?down\b/mi) splits the body at the first line-start
   occurrence of two dashes, at least one whitespace character, the word
   down (case-insensitive) and a word boundary.  The part after the marker
   must be non-empty (JavaScript treats both undefined and the empty string
   as falsy in the `if (!down)` check); otherwise the file is reported as
   missing its down separator.  Comment lines (^-- .*$) are stripped from
   the up part and both parts are trimmed. ===== -/

def isJsWs (c : Char) : Bool :=
  c = ' ' || c = '\t' || c = '\n' || c = '\r' || c = '\x0b' || c = '\x0c'

def toLowerAscii (c : Char) : Char :=
  if 'A' ≤ c ∧ c ≤ 'Z' then Char.ofNat (c.toNat + 32) else c

def isJsWordChar (c : Char) : Bool := c.isAlphanum || c = '_'

def wsRunLen : List Char → Nat
  | [] => 0
  | c :: cs => if isJsWs c then wsRunLen cs + 1 else 0

/-- Match of  --\s+?down\b  (case-insensitive) at the head of the character
list, returning the matched length.  The lazy whitespace quantifier can
only succeed on the maximal whitespace run, because whitespace characters
never start the literal word down. -/
def matchDownAt (cs : List Char) : Option Nat :=
  match cs with
  | '-' :: '-' :: rest =>
    let w := wsRunLen rest
    if w = 0 then none
    else
      match rest.drop w with
      | c1 :: c2 :: c3 :: c4 :: rest2 =>
        if (toLowerAscii c1 == 'd') && (toLowerAscii c2 == 'o') &&
           (toLowerAscii c3 == 'w') && (toLowerAscii c4 == 'n') &&
           (match rest2 with | [] => true | c :: _ => !(isJsWordChar c))
        then some (2 + w + 4) else none
      | _ => none
  | _ => none

/-- Scan for the first line-start position where the down marker matches
(the m flag makes the anchor match at position 0 and after each newline);
returns the characters before the match and the characters after it. -/
def findDownSplit : Bool → List Char → List Char → Option (List Char × List Char)
  | _, _, [] => none
  | als, acc, c :: cs =>
    match (if als then matchDownAt (c :: cs) else none) with
    | some n => some (acc.reverse, (c :: cs).drop n)
    | none => findDownSplit (c == '\n') (c :: acc) cs

def trimJs (cs : List Char) : List Char :=
  ((cs.dropWhile isJsWs).reverse.dropWhile isJsWs).reverse

def splitNl (cs : List Char) : List (List Char) :=
  cs.foldr
    (fun c acc =>
      if c = '\n' then [] :: acc
      else match acc with
           | [] => [[c]]
           | l :: ls => (c :: l) :: ls)
    [[]]

def isCommentLine (l : List Char) : Bool :=
  match l with
  | '-' :: '-' :: ' ' :: _ => true
  | _ => false

/-- up.replace(/^-- .*?$/gm, "") — the text of every comment line is
removed, its newline kept (database.js line 451). -/
def stripComments (cs : List Char) : List Char :=
  List.intercalate ['\n'] ((splitNl cs).map (fun l => if isCommentLine l then [] else l))

/-- Split a migration body into trimmed up and down scripts; none encodes
the malformed-migration failure (missing marker, or the falsy empty down
part). -/
def splitUpDown (content : String) : Option (String × String) :=
  match findDownSplit true [] content.toList with
  | none => none
  | some (up, down) =>
    if down.isEmpty then none
    else some (String.mk (trimJs (stripComments up)), String.mk (trimJs down))

/- ===== Errors raised by migrate (database.js lines 420-507):
   the ENOENT of fs.readdirSync on a missing directory, the
   missing-down-separator error (carrying the offending filename, as the
   thrown message does), and any propagated SQL failure. ===== -/

inductive MigErr where
  | enoent : MigErr
  | malformed (filename : String) : MigErr
  | sql (e : String) : MigErr
deriving DecidableEq, Repr

structure ParsedMig where
  id : Nat
  name : String
  filename : String
  up : String
  down : String
deriving DecidableEq, Repr

/-- Read a migration body and attach the up/down scripts (database.js lines
443-454); the map throws on the first malformed file, naming it. -/
def parseMigrations (content : String → String) : List MigEntry → Except MigErr (List ParsedMig)
  | [] => .ok []
  | e :: es =>
    match splitUpDown (content e.filename) with
    | none => .error (.malformed e.filename)
    | some (u, d) =>
      (parseMigrations content es).map
        (fun rest => { id := e.id, name := e.name, filename := e.filename,
                       up := u, down := d } :: rest)

/-- Content lookup inside the modelled migrations directory: the directory
is a list of (filename, body) pairs; fs.readFileSync on a name produced by
the directory listing always succeeds, so a default suffices. -/
def contentOf (lst : List (String × String)) (fname : String) : String :=
  ((lst.find? (fun p => p.1 == fname)).map (fun p => p.2)).getD ""

/-- The reader pipeline of migrate (database.js lines 425-454): list the
directory (none models a missing directory, on which fs.readdirSync throws
ENOENT), match and sort the filenames, then parse every body. -/
def readAndParse (dir : Option (List (String × String))) : Except MigErr (List ParsedMig) :=
  match dir with
  | none => .error .enoent
  | some lst => parseMigrations (contentOf lst) (readMigrationEntries (lst.map (fun p => p.1)))

/- ===== The database model.

   The ledger table (columns id, name, up, down — database.js lines
   457-462) lives next to an abstract schema state of type sigma; the
   execution of a user script (multi-statement exec of an up or down
   script) is an environment  String → sigma → Except String sigma.
   BEGIN / COMMIT / ROLLBACK follow the transactional semantics of the
   underlying engine: BEGIN snapshots, COMMIT publishes the working copy,
   ROLLBACK discards it.  The ledger DELETE and INSERT and the CREATE TABLE
   IF NOT EXISTS are modelled natively and never fail. ===== -/

structure DbMig where
  id : Nat
  name : String
  up : String
  down : String
deriving DecidableEq, Repr

structure DbState (σ : Type) where
  hasLedger : Bool
  ledger : List DbMig
  schema : σ
deriving DecidableEq, Repr

structure Sqlite (σ : Type) where
  committed : DbState σ
  txn : Option (DbState σ)
deriving DecidableEq, Repr

def ScriptEnv (σ : Type) := String → σ → Except String σ

def curState (s : Sqlite σ) : DbState σ := s.txn.getD s.committed

def setCur (s : Sqlite σ) (d : DbState σ) : Sqlite σ :=
  match s.txn with
  | some _ => { s with txn := some d }
  | none => { s with committed := d }

def beginTx (s : Sqlite σ) : Sqlite σ := { s with txn := some s.committed }

def commitTx (s : Sqlite σ) : Sqlite σ :=
  { committed := s.txn.getD s.committed, txn := none }

def rollbackTx (s : Sqlite σ) : Sqlite σ := { s with txn := none }

/-- CREATE TABLE IF NOT EXISTS (database.js lines 457-462), idempotent. -/
def createLedgerTable (s : Sqlite σ) : Sqlite σ :=
  setCur s { curState s with hasLedger := true }

/-- Key of the last element, 0 for the empty list. -/
def lastKeyD (key : α → Nat) (l : List α) : Nat :=
  match l.getLast? with
  | some x => key x
  | none => 0

/-- Largest key in the list (0 for the empty list). -/
def foldrMaxKey (key : α → Nat) (l : List α) : Nat :=
  l.foldr (fun x acc => max (key x) acc) 0

/-- migrations[migrations.length - 1].id with 0 for the empty list. -/
def lastIdD (l : List ParsedMig) : Nat := lastKeyD ParsedMig.id l

/-- dbMigrations[dbMigrations.length - 1].id with 0 for the empty list
(database.js line 491). -/
def lastRowIdD (l : List DbMig) : Nat := lastKeyD DbMig.id l

/-- Rollback eligibility of a ledger row (database.js lines 473-474):
no migration file carries its id, or the force policy (the reapply-last
policy, spelled force === "last" in the code) applies and the row id equals
the highest migration file id. -/
def eligibleRollback (parsed : List ParsedMig) (force : Bool) (lastFileId : Nat)
    (row : DbMig) : Bool :=
  (!(parsed.any (fun x => x.id == row.id))) || (force && row.id == lastFileId)

/-- Scheduled actions; the trace of migrate records every action whose
transaction was entered, in order. -/
inductive MigAction where
  | rollback (row : DbMig) : MigAction
  | apply (m : ParsedMig) : MigAction
deriving DecidableEq, Repr

/-- The rollback loop (database.js lines 471-488): walk the ledger rows in
descending id order; for each eligible row BEGIN, run its stored down
script, DELETE its ledger row, COMMIT, and drop it from the working
dbMigrations array; on a script failure ROLLBACK and abort; break at the
first ineligible row. -/
def rollbackLoop (env : ScriptEnv σ) (parsed : List ParsedMig) (force : Bool)
    (lastFileId : Nat) :
    List DbMig → List DbMig → Sqlite σ → List MigAction →
    Except String Unit × Sqlite σ × List DbMig × List MigAction
  | [], working, s, tr => (.ok (), s, working, tr)
  | row :: pending, working, s, tr =>
    if eligibleRollback parsed force lastFileId row then
      let s1 := beginTx s
      match env row.down (curState s1).schema with
      | .error e => (.error e, rollbackTx s1, working, tr ++ [.rollback row])
      | .ok sch =>
        let s2 := setCur s1 { curState s1 with schema := sch }
        let s3 := setCur s2
          { curState s2 with ledger := (curState s2).ledger.filter (fun x => x.id ≠ row.id) }
        let s4 := commitTx s3
        rollbackLoop env parsed force lastFileId pending
          (working.filter (fun x => x.id ≠ row.id)) s4 (tr ++ [.rollback row])
    else (.ok (), s, working, tr)

/-- The apply loop (database.js lines 492-507): for every migration file
with id above the highest remaining ledger id, BEGIN, run its up script,
INSERT its ledger row, COMMIT; on a script failure ROLLBACK and abort. -/
def applyLoop (env : ScriptEnv σ) (lastMigrationId : Nat) :
    List ParsedMig → Sqlite σ → List MigAction →
    Except String Unit × Sqlite σ × List MigAction
  | [], s, tr => (.ok (), s, tr)
  | m :: rest, s, tr =>
    if lastMigrationId < m.id then
      let s1 := beginTx s
      match env m.up (curState s1).schema with
      | .error e => (.error e, rollbackTx s1, tr ++ [.apply m])
      | .ok sch =>
        let s2 := setCur s1 { curState s1 with schema := sch }
        let s3 := setCur s2
          { curState s2 with
            ledger := (curState s2).ledger ++ [{ id := m.id, name := m.name,
                                                 up := m.up, down := m.down }] }
        let s4 := commitTx s3
        applyLoop env lastMigrationId rest s4 (tr ++ [.apply m])
    else applyLoop env lastMigrationId rest s tr

/-- DB.prototype.migrate (database.js lines 420-507).  Returns the call
outcome, the final database state, and the trace of actions whose
transaction was entered. -/
def migrate (env : ScriptEnv σ) (dir : Option (List (String × String))) (force : Bool)
    (s : Sqlite σ) : Except MigErr Unit × Sqlite σ × List MigAction :=
  match readAndParse dir with
  | .error e => (.error e, s, [])
  | .ok [] => (.ok (), s, [])
  | .ok (m0 :: parsedRest) =>
    let parsed := m0 :: parsedRest
    let s1 := createLedgerTable s
    let rows := sortAscBy DbMig.id (curState s1).ledger
    match rollbackLoop env parsed force (lastIdD parsed) (sortDescBy DbMig.id rows) rows s1 [] with
    | (.error e, sErr, _, tr) => (.error (.sql e), sErr, tr)
    | (.ok _, s2, working, tr) =>
      match applyLoop env (lastRowIdD working) parsed s2 tr with
      | (.error e, sErr, tr2) => (.error (.sql e), sErr, tr2)
      | (.ok _, s3, tr2) => (.ok (), s3, tr2)

/-- The pure reconciliation plan of the code, read off the two loops of
migrate with the execution effects erased (database.js lines 471-507). -/
def migratePlan (parsed : List ParsedMig) (force : Bool) (ledger : List DbMig) :
    List MigAction :=
  match parsed with
  | [] => []
  | _ :: _ =>
    let rows := sortAscBy DbMig.id ledger
    let rolled := (sortDescBy DbMig.id rows).takeWhile
      (eligibleRollback parsed force (lastIdD parsed))
    let remaining := rows.filter (fun r => !(rolled.any (fun x => x.id == r.id)))
    rolled.map .rollback ++
      (parsed.filter (fun m => lastRowIdD remaining < m.id)).map .apply

def maxIdFiles (l : List ParsedMig) : Nat := foldrMaxKey ParsedMig.id l

def maxIdRows (l : List DbMig) : Nat := foldrMaxKey DbMig.id l

/-- Modelled from the spec: the reference reconciliation algorithm of
section 4.3 — scan ledger rows from highest id to lowest, roll back a row
iff no MigrationFile with that id exists or the force policy applies and
the row has the highest id among current MigrationFile ids, stopping at the
first ineligible row; then apply, ascending, every file whose id exceeds
the highest id remaining in the ledger (0 if empty). -/
def specPlan (files : List ParsedMig) (force : Bool) (ledger : List DbMig) :
    List MigAction :=
  let rows := sortAscBy DbMig.id ledger
  let rolled := (sortDescBy DbMig.id rows).takeWhile
    (fun row => (!(files.any (fun x => x.id == row.id))) ||
                (force && row.id == maxIdFiles files))
  let remaining := rows.filter (fun r => !(rolled.any (fun x => x.id == r.id)))
  rolled.map .rollback ++
    (files.filter (fun m => maxIdRows remaining < m.id)).map .apply

/-- Pure effect of one committed action on the database contents: the
script result together with the ledger DELETE (rollback, using the stored
down script) or ledger INSERT (apply). -/
def runAction (env : ScriptEnv σ) (a : MigAction) (d : DbState σ) :
    Except String (DbState σ) :=
  match a with
  | .rollback row =>
    (env row.down d.schema).map
      (fun sch =>
        { d with
          ledger := d.ledger.filter (fun x => x.id ≠ row.id)
          schema := sch })
  | .apply m =>
    (env m.up d.schema).map
      (fun sch =>
        { d with
          ledger := d.ledger ++ [{ id := m.id, name := m.name, up := m.up, down := m.down }]
          schema := sch })

def runActions (env : ScriptEnv σ) : List MigAction → DbState σ → Except String (DbState σ)
  | [], d => .ok d
  | a :: rest, d => (runAction env a d).bind (runActions env rest)

/-- Occurrence of an Apply action with the given id. -/
def hasApplyId (n : Nat) : List MigAction → Bool
  | [] => false
  | .apply m :: tr => (m.id == n) || hasApplyId n tr
  | .rollback _ :: tr => hasApplyId n tr

/-- A Rollback of id n followed (later in the list) by an Apply of id n. -/
def rollbackThenApply (n : Nat) : List MigAction → Bool
  | [] => false
  | .rollback r :: tr => ((r.id == n) && hasApplyId n tr) || rollbackThenApply n tr
  | .apply _ :: tr => rollbackThenApply n tr

/- ===== The connection lifecycle manager (database.js lines 19-57).

   The DB constructor merges the caller options over the defaults
   { path: dbFile, migrate: true, WAL: true } with Object.assign
   (database.js lines 24-28); the README and the type declarations also
   document memory / readOnly / fileMustExist keys, which the merge keeps.
   An options argument is a record of present-or-absent fields (an
   explicitly undefined value, which Object.assign would copy, is not
   modelled — no claim touches it).  The migrate field is reduced to its
   truthiness; the migration sub-configuration is handled by migrate
   itself. ===== -/

structure DBOptionsArg where
  path : Option String := none
  migrate : Option Bool := none
  WAL : Option Bool := none
  readOnly : Option Bool := none
  fileMustExist : Option Bool := none
  memory : Option Bool := none
deriving DecidableEq, Repr

structure DBOptions where
  path : String
  migrate : Bool
  WAL : Bool
  readOnly : Bool
  fileMustExist : Bool
  memory : Bool
deriving DecidableEq, Repr

/-- Object.assign of the defaults of database.js lines 24-28 with the
caller options; absent keys fall back to the defaults (absent boolean
extras behave as false). -/
def assignDefaults (o : DBOptionsArg) : DBOptions :=
  { path := o.path.getD "./data/sqlite3.db"
    migrate := o.migrate.getD true
    WAL := o.WAL.getD true
    readOnly := o.readOnly.getD false
    fileMustExist := o.fileMustExist.getD false
    memory := o.memory.getD false }

/-- One DB instance: the merged options, the cached handle this.db, and
the state of its awaitLock.  The lock is modelled from the spec: a held
flag plus a FIFO queue of waiters (the await-lock dependency is not part
of the sources; section 4.1 specifies mutual exclusion with FIFO-queued
waiters). -/
structure DBInst where
  options : DBOptions
  db : Option Nat := none
  lockHeld : Bool := false
  lockQueue : List Nat := []
deriving DecidableEq, Repr

/-- new DB(options): merge the options; the lock starts free and no handle
is cached. -/
def mkDB (o : DBOptionsArg) : DBInst :=
  { options := assignDefaults o }

/-- The module-level call shape (database.js lines 19-23): DB(options)
without new returns the stored global instance when one exists (the
options of the second call are never read), and otherwise constructs and
stores a new instance. -/
def dbCall (o : DBOptionsArg) (globalInst : Option DBInst) : DBInst × Option DBInst :=
  match globalInst with
  | some i => (i, some i)
  | none =>
    let i := mkDB o
    (i, some i)

/-- Outcome of a single connection() call in the sequential model: a
resolved handle, a rejection, or blocked (the call awaits a lock release
that no other task will ever perform). -/
inductive ConnOutcome where
  | ok (h : Nat) : ConnOutcome
  | error (e : String) : ConnOutcome
  | blocked : ConnOutcome
deriving DecidableEq, Repr

/-- Environment of one connection() attempt: the outcomes the filesystem
and the native driver would report for the four awaited steps (directory
creation, native open, durability pragma, migration run). -/
structure ConnEnv where
  mkdir : Except String Unit
  openDb : Except String Nat
  walPragma : Except String Unit
  migrateRun : Except String Unit
deriving Repr

/-- DB.prototype.connection (database.js lines 32-57), sequential view.
The try/catch wraps only mkdirp.sync and the native open (lines 38-48): a
failure there clears this.db, releases the lock and rethrows.  The WAL
pragma (lines 49-51) and the migrate call (lines 52-54) run outside any
try/catch: a failure there propagates while this.db stays assigned and the
lock stays held. -/
def connectionSeq (env : ConnEnv) (inst : DBInst) : ConnOutcome × DBInst :=
  if inst.lockHeld then
    (.blocked, { inst with lockQueue := inst.lockQueue ++ [0] })
  else
    let locked := { inst with lockHeld := true }
    match locked.db with
    | some h => (.ok h, { locked with lockHeld := false })
    | none =>
      match env.mkdir.bind (fun _ => env.openDb) with
      | .error e => (.error e, { locked with db := none, lockHeld := false })
      | .ok h =>
        let opened := { locked with db := some h }
        match (if opened.options.WAL then env.walPragma else .ok ()) with
        | .error e => (.error e, opened)
        | .ok _ =>
          match (if opened.options.migrate then env.migrateRun else .ok ()) with
          | .error e => (.error e, opened)
          | .ok _ => (.ok h, { opened with lockHeld := false })

/- ===== The native open call (database.js line 42).

   The code invokes  new sqlite3.Database(this.options.path, callback) —
   the only argument derived from the configuration is the path; no mode
   flag is ever passed. ===== -/

/-- The literal argument list the code passes to the native constructor:
just the path. -/
def nativeOpenArgs (opts : DBOptions) : String := opts.path

structure FsState where
  dirExists : Bool
  fileExists : Bool
deriving DecidableEq, Repr

/-- The sqlite3 driver constructor under its default mode
(OPEN_READWRITE | OPEN_CREATE | OPEN_FULLMUTEX, used whenever no mode
argument is given): opening an existing or missing file under an existing
parent directory succeeds, creating the file when missing; a missing
parent directory yields SQLITE_CANTOPEN. -/
def sqlite3DatabaseDefault (_path : String) (fs : FsState) : Except String Nat × FsState :=
  if fs.dirExists then (.ok 0, { fs with fileExists := true })
  else (.error "SQLITE_CANTOPEN", fs)

/-- The open step of connection() (database.js lines 40-43): mkdirp.sync
ensures the parent directory, then the native constructor receives only
nativeOpenArgs. -/
def connectionOpenStep (opts : DBOptions) (fs : FsState) : Except String Nat × FsState :=
  sqlite3DatabaseDefault (nativeOpenArgs opts) { fs with dirExists := true }

/- ===== DB.prototype.close (database.js lines 79-101).

   With a cached handle, the handle is uncached and the native close is
   attempted; a SQLITE_BUSY failure is retried after a 50 ms timeout while
   the tries budget (starting at 10) is non-zero, so up to 11 attempts run
   in total.  Responses of the native close are an environment indexed by
   the attempt number. ===== -/

inductive CloseResp where
  | ok : CloseResp
  | busy : CloseResp
  | err (code : String) : CloseResp
deriving DecidableEq, Repr

/-- tryToClose (database.js lines 85-98), returning the outcome and the
total backoff delay in milliseconds accumulated by the 50 ms setTimeout
retries. -/
def tryToClose (resp : Nat → CloseResp) : Nat → Nat → Except String Unit × Nat
  | k, tries =>
    match resp k, tries with
    | .ok, _ => (.ok (), 0)
    | .err c, _ => (.error c, 0)
    | .busy, 0 => (.error "SQLITE_BUSY", 0)
    | .busy, t + 1 =>
      let r := tryToClose resp (k + 1) t
      (r.1, r.2 + 50)

/-- DB.prototype.close on one instance: a no-op without a cached handle;
otherwise this.db is cleared and tryToClose(10) runs.  (The clearing of
the module-level default slot, lines 83, is part of the singleton model
and not needed here.) -/
def closeDB (resp : Nat → CloseResp) (inst : DBInst) :
    Except String Unit × Nat × DBInst :=
  match inst.db with
  | none => (.ok (), 0, inst)
  | some _ =>
    let r := tryToClose resp 0 10
    (r.1, r.2, { inst with db := none })

/- ===== Concurrent first use of connection() (database.js lines 32-57).

   The runtime is cooperative: interleaving can only happen at the await
   points of connection().  Each overlapping caller is a task whose
   program counter names the next awaited step; a schedule chooses which
   task resumes next.  The lock follows the FIFO waiter semantics of
   section 4.1 (modelled from the spec; the await-lock dependency is not
   part of the sources): releasing hands the lock to the oldest waiter.
   The environment is the successful first use: directory creation, open,
   WAL pragma and migration all succeed, and each open yields a fresh
   handle (so distinct opens are observable). ===== -/

inductive TaskPc where
  | start : TaskPc
  | waiting : TaskPc
  | gotLock : TaskPc
  | opened : TaskPc
  | walDone : TaskPc
  | done (r : ConnOutcome) : TaskPc
deriving DecidableEq, Repr

structure ConcState (n : Nat) where
  db : Option Nat
  lockHeld : Bool
  queue : List (Fin n)
  pcs : Fin n → TaskPc
  nextHandle : Nat
  opens : Nat
  migrates : Nat

/-- awaitLock.release(): hand the lock to the oldest FIFO waiter (which
resumes inside its acquireAsync, i.e. right after line 33), or mark it
free. -/
def releaseLock (c : ConcState n) : ConcState n :=
  match c.queue with
  | [] => { c with lockHeld := false }
  | j :: rest => { c with queue := rest, pcs := Function.update c.pcs j .gotLock }

/-- One resumption of task i.  start: acquireAsync (enqueue when held).
gotLock: the cached-handle check of line 34, then either release-and-return
or mkdirp + native open (lines 40-43).  opened: the WAL pragma await
(line 50).  walDone: the migrate await (line 53) followed synchronously by
release and return of this.db (lines 55-56).  waiting and done tasks have
nothing to resume. -/
def stepTask (i : Fin n) (c : ConcState n) : ConcState n :=
  match c.pcs i with
  | .start =>
    if c.lockHeld then
      { c with queue := c.queue ++ [i], pcs := Function.update c.pcs i .waiting }
    else
      { c with lockHeld := true, pcs := Function.update c.pcs i .gotLock }
  | .waiting => c
  | .gotLock =>
    match c.db with
    | some h => releaseLock { c with pcs := Function.update c.pcs i (.done (.ok h)) }
    | none =>
      { c with db := some c.nextHandle, nextHandle := c.nextHandle + 1,
               opens := c.opens + 1, pcs := Function.update c.pcs i .opened }
  | .opened => { c with pcs := Function.update c.pcs i .walDone }
  | .walDone =>
    releaseLock
      { c with migrates := c.migrates + 1,
               pcs := Function.update c.pcs i (.done (.ok (c.db.getD 0))) }
  | .done _ => c

def runSched (sched : List (Fin n)) (c : ConcState n) : ConcState n :=
  sched.foldl (fun acc i => stepTask i acc) c

/-- All callers start before their first await, on a fresh instance. -/
def initConc (n : Nat) : ConcState n :=
  { db := none, lockHeld := false, queue := [], pcs := fun _ => .start,
    nextHandle := 0, opens := 0, migrates := 0 }

/- ===== Lemmas about the stable insertion sorts. ===== -/

theorem mem_insAsc (key : α → Nat) (e a : α) :
    ∀ l : List α, a ∈ insAsc key e l ↔ a = e ∨ a ∈ l := by
  intro l
  induction l with
  | nil => simp [insAsc]
  | cons x xs ih =>
    unfold insAsc
    by_cases h : key x ≤ key e
    · simp [h, ih]
      tauto
    · simp [h]

theorem pairwise_insAsc (key : α → Nat) (e : α) :
    ∀ l : List α, l.Pairwise (fun a b => key a ≤ key b) →
      (insAsc key e l).Pairwise (fun a b => key a ≤ key b) := by
  intro l
  induction l with
  | nil => simp [insAsc]
  | cons x xs ih =>
    intro h
    rw [List.pairwise_cons] at h
    obtain ⟨hx, hxs⟩ := h
    unfold insAsc
    by_cases hle : key x ≤ key e
    · rw [if_pos hle, List.pairwise_cons]
      refine ⟨?_, ih hxs⟩
      intro b hb
      rcases (mem_insAsc key e b xs).mp hb with rfl | hb
      · exact hle
      · exact hx b hb
    · rw [if_neg hle, List.pairwise_cons]
      refine ⟨?_, List.pairwise_cons.mpr ⟨hx, hxs⟩⟩
      intro b hb
      rcases List.mem_cons.mp hb with rfl | hb
      · omega
      · exact le_trans (by omega) (hx b hb)

theorem mem_sortAscBy_aux (key : α → Nat) :
    ∀ (l acc : List α) (a : α),
      a ∈ l.foldl (fun acc e => insAsc key e acc) acc ↔ a ∈ acc ∨ a ∈ l := by
  intro l
  induction l with
  | nil => simp
  | cons x xs ih =>
    intro acc a
    simp only [List.foldl_cons]
    rw [ih, mem_insAsc]
    simp
    tauto

theorem mem_sortAscBy (key : α → Nat) (l : List α) (a : α) :
    a ∈ sortAscBy key l ↔ a ∈ l := by
  unfold sortAscBy
  rw [mem_sortAscBy_aux]
  simp

theorem pairwise_sortAscBy_aux (key : α → Nat) :
    ∀ (l acc : List α), acc.Pairwise (fun a b => key a ≤ key b) →
      (l.foldl (fun acc e => insAsc key e acc) acc).Pairwise (fun a b => key a ≤ key b) := by
  intro l
  induction l with
  | nil => intro acc h; simpa using h
  | cons x xs ih =>
    intro acc h
    simp only [List.foldl_cons]
    exact ih _ (pairwise_insAsc key x acc h)

theorem pairwise_sortAscBy (key : α → Nat) (l : List α) :
    (sortAscBy key l).Pairwise (fun a b => key a ≤ key b) :=
  pairwise_sortAscBy_aux key l [] (by simp)

theorem mem_insDesc (key : α → Nat) (e a : α) :
    ∀ l : List α, a ∈ insDesc key e l ↔ a = e ∨ a ∈ l := by
  intro l
  induction l with
  | nil => simp [insDesc]
  | cons x xs ih =>
    unfold insDesc
    by_cases h : key e ≤ key x
    · simp [h, ih]
      tauto
    · simp [h]

theorem pairwise_insDesc (key : α → Nat) (e : α) :
    ∀ l : List α, l.Pairwise (fun a b => key b ≤ key a) →
      (insDesc key e l).Pairwise (fun a b => key b ≤ key a) := by
  intro l
  induction l with
  | nil => simp [insDesc]
  | cons x xs ih =>
    intro h
    rw [List.pairwise_cons] at h
    obtain ⟨hx, hxs⟩ := h
    unfold insDesc
    by_cases hle : key e ≤ key x
    · rw [if_pos hle, List.pairwise_cons]
      refine ⟨?_, ih hxs⟩
      intro b hb
      rcases (mem_insDesc key e b xs).mp hb with rfl | hb
      · exact hle
      · exact hx b hb
    · rw [if_neg hle, List.pairwise_cons]
      refine ⟨?_, List.pairwise_cons.mpr ⟨hx, hxs⟩⟩
      intro b hb
      rcases List.mem_cons.mp hb with rfl | hb
      · omega
      · exact le_trans (hx b hb) (by omega)

theorem mem_sortDescBy_aux (key : α → Nat) :
    ∀ (l acc : List α) (a : α),
      a ∈ l.foldl (fun acc e => insDesc key e acc) acc ↔ a ∈ acc ∨ a ∈ l := by
  intro l
  induction l with
  | nil => simp
  | cons x xs ih =>
    intro acc a
    simp only [List.foldl_cons]
    rw [ih, mem_insDesc]
    simp
    tauto

theorem mem_sortDescBy (key : α → Nat) (l : List α) (a : α) :
    a ∈ sortDescBy key l ↔ a ∈ l := by
  unfold sortDescBy
  rw [mem_sortDescBy_aux]
  simp

theorem pairwise_sortDescBy_aux (key : α → Nat) :
    ∀ (l acc : List α), acc.Pairwise (fun a b => key b ≤ key a) →
      (l.foldl (fun acc e => insDesc key e acc) acc).Pairwise (fun a b => key b ≤ key a) := by
  intro l
  induction l with
  | nil => intro acc h; simpa using h
  | cons x xs ih =>
    intro acc h
    simp only [List.foldl_cons]
    exact ih _ (pairwise_insDesc key x acc h)

theorem pairwise_sortDescBy (key : α → Nat) (l : List α) :
    (sortDescBy key l).Pairwise (fun a b => key b ≤ key a) :=
  pairwise_sortDescBy_aux key l [] (by simp)

theorem sortDescBy_eq_nil_iff (key : α → Nat) (l : List α) :
    sortDescBy key l = [] ↔ l = [] := by
  constructor
  · intro h
    cases l with
    | nil => rfl
    | cons x xs =>
      have hx : x ∈ sortDescBy key (x :: xs) := (mem_sortDescBy key _ x).mpr (by simp)
      rw [h] at hx
      simp at hx
  · intro h
    subst h
    rfl

/- ===== Lemmas about lastKeyD and foldrMaxKey. ===== -/

theorem le_foldrMaxKey (key : α → Nat) :
    ∀ (l : List α) (a : α), a ∈ l → key a ≤ foldrMaxKey key l := by
  intro l
  induction l with
  | nil => simp
  | cons x xs ih =>
    intro a ha
    rcases List.mem_cons.mp ha with rfl | ha
    · exact le_max_left _ _
    · exact le_trans (ih a ha) (le_max_right _ _)

theorem foldrMaxKey_zero_or_mem (key : α → Nat) :
    ∀ l : List α, foldrMaxKey key l = 0 ∨ ∃ a ∈ l, key a = foldrMaxKey key l := by
  intro l
  induction l with
  | nil => left; rfl
  | cons x xs ih =>
    rcases Nat.le_total (key x) (foldrMaxKey key xs) with h | h
    · rcases ih with h0 | ⟨a, ha, hka⟩
      · have hx0 : key x = 0 := by omega
        left
        show max (key x) (foldrMaxKey key xs) = 0
        omega
      · right
        exact ⟨a, by simp [ha], by
          show key a = max (key x) (foldrMaxKey key xs)
          omega⟩
    · right
      refine ⟨x, by simp, ?_⟩
      show key x = max (key x) (foldrMaxKey key xs)
      omega

theorem lastKeyD_eq_foldrMaxKey (key : α → Nat) :
    ∀ l : List α, l.Pairwise (fun a b => key a ≤ key b) →
      lastKeyD key l = foldrMaxKey key l := by
  intro l
  induction l with
  | nil => intro _; rfl
  | cons x xs ih =>
    intro h
    rw [List.pairwise_cons] at h
    obtain ⟨hx, hxs⟩ := h
    cases xs with
    | nil =>
      show key x = max (key x) (foldrMaxKey key [])
      have : foldrMaxKey key ([] : List α) = 0 := rfl
      omega
    | cons y ys =>
      have hrec := ih hxs
      have hle : key x ≤ foldrMaxKey key (y :: ys) :=
        le_trans (hx y (by simp)) (le_foldrMaxKey key _ y (by simp))
      unfold lastKeyD at hrec ⊢
      rw [List.getLast?_cons_cons, hrec]
      have h2 : foldrMaxKey key (x :: y :: ys) = max (key x) (foldrMaxKey key (y :: ys)) := rfl
      rw [h2]
      omega

/- ===== Lemmas about the reader and the parser. ===== -/

theorem readMigrationEntries_sorted (listing : List String) :
    (readMigrationEntries listing).Pairwise (fun a b => a.id ≤ b.id) :=
  pairwise_sortAscBy MigEntry.id _

theorem parseMigrations_ids (content : String → String) :
    ∀ (es : List MigEntry) (ps : List ParsedMig),
      parseMigrations content es = .ok ps →
      ps.map ParsedMig.id = es.map MigEntry.id := by
  intro es
  induction es with
  | nil =>
    intro ps h
    simp [parseMigrations] at h
    subst h
    rfl
  | cons e es ih =>
    intro ps h
    unfold parseMigrations at h
    cases hs : splitUpDown (content e.filename) with
    | none => rw [hs] at h; exact absurd h (by simp)
    | some ud =>
      rw [hs] at h
      cases hrest : parseMigrations content es with
      | error er => rw [hrest] at h; exact absurd h (by simp [Except.map])
      | ok rest =>
        rw [hrest] at h
        simp [Except.map] at h
        subst h
        simp [ih rest hrest]

theorem readAndParse_sorted (dir : Option (List (String × String)))
    (ps : List ParsedMig) (h : readAndParse dir = .ok ps) :
    ps.Pairwise (fun a b => a.id ≤ b.id) := by
  unfold readAndParse at h
  cases dir with
  | none => exact absurd h (by simp)
  | some lst =>
    have hids := parseMigrations_ids _ _ _ h
    have hsorted := readMigrationEntries_sorted (lst.map (fun p => p.1))
    have h1 : (ps.map ParsedMig.id).Pairwise (fun a b => a ≤ b) := by
      rw [hids]
      exact (List.pairwise_map).mpr hsorted
    exact (List.pairwise_map).mp h1

/- ===== Lemmas about runActions. ===== -/

theorem runActions_append (env : ScriptEnv σ) :
    ∀ (l1 l2 : List MigAction) (d : DbState σ),
      runActions env (l1 ++ l2) d = (runActions env l1 d).bind (runActions env l2) := by
  intro l1
  induction l1 with
  | nil => intro l2 d; simp [runActions, Except.bind]
  | cons a l1 ih =>
    intro l2 d
    simp only [List.cons_append, runActions]
    cases runAction env a d with
    | error e => simp [Except.bind]
    | ok d1 => simp [Except.bind, ih]

theorem runAction_total (env : ScriptEnv σ)
    (henv : ∀ q x, ∃ y, env q x = .ok y) (a : MigAction) (d : DbState σ) :
    ∃ d2, runAction env a d = .ok d2 := by
  cases a with
  | rollback row =>
    obtain ⟨y, hy⟩ := henv row.down d.schema
    refine ⟨{ d with ledger := d.ledger.filter (fun x => x.id ≠ row.id), schema := y }, ?_⟩
    simp [runAction, hy, Except.map]
  | apply m =>
    obtain ⟨y, hy⟩ := henv m.up d.schema
    refine ⟨{ d with
              ledger := d.ledger ++ [{ id := m.id, name := m.name, up := m.up, down := m.down }]
              schema := y }, ?_⟩
    simp [runAction, hy, Except.map]

theorem runActions_total (env : ScriptEnv σ)
    (henv : ∀ q x, ∃ y, env q x = .ok y) :
    ∀ (acts : List MigAction) (d : DbState σ),
      ∃ d2, runActions env acts d = .ok d2 := by
  intro acts
  induction acts with
  | nil => intro d; exact ⟨d, rfl⟩
  | cons a acts ih =>
    intro d
    obtain ⟨d1, h1⟩ := runAction_total env henv a d
    obtain ⟨d2, h2⟩ := ih d1
    exact ⟨d2, by simp [runActions, h1, Except.bind, h2]⟩

/- ===== Characterization of the two migrate loops. ===== -/

theorem rolled_pred_eq (row : DbMig) (rl : List DbMig) (x : DbMig) :
    ((decide (x.id ≠ row.id)) && !(rl.any (fun y => y.id == x.id))) =
    !((row :: rl).any (fun y => y.id == x.id)) := by
  simp only [List.any_cons, Bool.not_or]
  by_cases h : row.id = x.id
  · simp [h]
  · have h2 : x.id ≠ row.id := fun hh => h hh.symm
    simp [h, h2]

theorem filter_rolled_cons (row : DbMig) (rl : List DbMig) (w : List DbMig) :
    (w.filter (fun x => x.id ≠ row.id)).filter
        (fun x => !(rl.any (fun y => y.id == x.id))) =
      w.filter (fun x => !((row :: rl).any (fun y => y.id == x.id))) := by
  rw [List.filter_filter]
  apply List.filter_congr
  intro a _
  rw [Bool.and_comm]
  exact rolled_pred_eq row rl a

theorem rollbackLoop_ok (env : ScriptEnv σ) (parsed : List ParsedMig) (force : Bool)
    (lfid : Nat) :
    ∀ (pending working : List DbMig) (c : DbState σ) (tr : List MigAction) (d : DbState σ),
      runActions env
          ((pending.takeWhile (eligibleRollback parsed force lfid)).map MigAction.rollback)
          c = .ok d →
      rollbackLoop env parsed force lfid pending working ⟨c, none⟩ tr =
        (.ok (), ⟨d, none⟩,
         working.filter
           (fun x => !((pending.takeWhile (eligibleRollback parsed force lfid)).any
             (fun y => y.id == x.id))),
         tr ++ (pending.takeWhile (eligibleRollback parsed force lfid)).map
           MigAction.rollback) := by
  intro pending
  induction pending with
  | nil =>
    intro working c tr d h
    simp [runActions] at h
    subst h
    simp [rollbackLoop]
  | cons row rest ih =>
    intro working c tr d h
    by_cases helig : eligibleRollback parsed force lfid row = true
    · rw [List.takeWhile_cons_of_pos helig] at h ⊢
      simp only [List.map_cons, runActions, runAction] at h
      cases henv : env row.down c.schema with
      | error e => rw [henv] at h; simp [Except.map, Except.bind] at h
      | ok sch =>
        rw [henv] at h
        simp only [Except.map, Except.bind] at h
        unfold rollbackLoop
        rw [if_pos helig]
        simp only [beginTx, curState, setCur, commitTx, Option.getD]
        rw [henv]
        simp only
        rw [ih (working.filter (fun x => x.id ≠ row.id)) _ (tr ++ [MigAction.rollback row]) d h]
        rw [filter_rolled_cons]
        simp

    · rw [List.takeWhile_cons_of_neg (by simpa using helig)] at h ⊢
      simp [runActions] at h
      subst h
      unfold rollbackLoop
      rw [if_neg helig]
      simp

theorem rollbackLoop_err (env : ScriptEnv σ) (parsed : List ParsedMig) (force : Bool)
    (lfid : Nat) :
    ∀ (pending working : List DbMig) (c : DbState σ) (tr : List MigAction)
      (pre : List DbMig) (rowj : DbMig) (suf : List DbMig) (d : DbState σ) (e : String),
      pending.takeWhile (eligibleRollback parsed force lfid) = pre ++ rowj :: suf →
      runActions env (pre.map MigAction.rollback) c = .ok d →
      runAction env (.rollback rowj) d = .error e →
      ∃ w, rollbackLoop env parsed force lfid pending working ⟨c, none⟩ tr =
        (.error e, ⟨d, none⟩, w,
         tr ++ pre.map MigAction.rollback ++ [MigAction.rollback rowj]) := by
  intro pending
  induction pending with
  | nil =>
    intro working c tr pre rowj suf d e hdec
    simp [List.takeWhile] at hdec
  | cons row rest ih =>
    intro working c tr pre rowj suf d e hdec hpre hfail
    by_cases helig : eligibleRollback parsed force lfid row = true
    · rw [List.takeWhile_cons_of_pos helig] at hdec
      cases pre with
      | nil =>
        simp at hdec
        obtain ⟨hrow, _⟩ := hdec
        subst hrow
        simp [runActions] at hpre
        subst hpre
        simp only [runAction] at hfail
        cases henv : env row.down c.schema with
        | ok sch => rw [henv] at hfail; simp [Except.map] at hfail
        | error e2 =>
          rw [henv] at hfail
          simp [Except.map] at hfail
          subst hfail
          refine ⟨working, ?_⟩
          unfold rollbackLoop
          rw [if_pos helig]
          simp only [beginTx, curState, setCur, commitTx, rollbackTx, Option.getD]
          rw [henv]
          simp
      | cons row0 pre =>
        simp at hdec
        obtain ⟨hrow, hdec2⟩ := hdec
        subst hrow
        simp only [List.map_cons, runActions, runAction] at hpre
        cases henv : env row.down c.schema with
        | error e2 => rw [henv] at hpre; simp [Except.map, Except.bind] at hpre
        | ok sch =>
          rw [henv] at hpre
          simp only [Except.map, Except.bind] at hpre
          obtain ⟨w, hw⟩ := ih (working.filter (fun x => x.id ≠ row.id)) _
            (tr ++ [MigAction.rollback row]) pre rowj suf d e hdec2 hpre hfail
          refine ⟨w, ?_⟩
          unfold rollbackLoop
          rw [if_pos helig]
          simp only [beginTx, curState, setCur, commitTx, Option.getD]
          rw [henv]
          simp only
          rw [hw]
          simp
    · rw [List.takeWhile_cons_of_neg (by simpa using helig)] at hdec
      exact absurd hdec (List.append_ne_nil_of_right_ne_nil _ (by simp)).symm

theorem applyLoop_ok (env : ScriptEnv σ) (lastId : Nat) :
    ∀ (files : List ParsedMig) (c : DbState σ) (tr : List MigAction) (d : DbState σ),
      runActions env ((files.filter (fun m => lastId < m.id)).map MigAction.apply) c = .ok d →
      applyLoop env lastId files ⟨c, none⟩ tr =
        (.ok (), ⟨d, none⟩,
         tr ++ (files.filter (fun m => lastId < m.id)).map MigAction.apply) := by
  intro files
  induction files with
  | nil =>
    intro c tr d h
    simp [runActions] at h
    subst h
    simp [applyLoop]
  | cons m rest ih =>
    intro c tr d h
    by_cases hm : lastId < m.id
    · rw [List.filter_cons_of_pos (by simpa using hm)] at h ⊢
      simp only [List.map_cons, runActions, runAction] at h
      cases henv : env m.up c.schema with
      | error e => rw [henv] at h; simp [Except.map, Except.bind] at h
      | ok sch =>
        rw [henv] at h
        simp only [Except.map, Except.bind] at h
        unfold applyLoop
        rw [if_pos hm]
        simp only [beginTx, curState, setCur, commitTx, Option.getD]
        rw [henv]
        simp only
        rw [ih _ (tr ++ [MigAction.apply m]) d h]
        simp
    · rw [List.filter_cons_of_neg (by simpa using hm)] at h ⊢
      unfold applyLoop
      rw [if_neg hm]
      exact ih _ tr d h

theorem applyLoop_err (env : ScriptEnv σ) (lastId : Nat) :
    ∀ (files : List ParsedMig) (c : DbState σ) (tr : List MigAction)
      (pre : List ParsedMig) (mj : ParsedMig) (suf : List ParsedMig)
      (d : DbState σ) (e : String),
      files.filter (fun m => lastId < m.id) = pre ++ mj :: suf →
      runActions env (pre.map MigAction.apply) c = .ok d →
      runAction env (.apply mj) d = .error e →
      applyLoop env lastId files ⟨c, none⟩ tr =
        (.error e, ⟨d, none⟩,
         tr ++ pre.map MigAction.apply ++ [MigAction.apply mj]) := by
  intro files
  induction files with
  | nil =>
    intro c tr pre mj suf d e hdec
    simp at hdec
  | cons m rest ih =>
    intro c tr pre mj suf d e hdec hpre hfail
    by_cases hm : lastId < m.id
    · rw [List.filter_cons_of_pos (by simpa using hm)] at hdec
      cases pre with
      | nil =>
        simp at hdec
        obtain ⟨hm0, _⟩ := hdec
        subst hm0
        simp [runActions] at hpre
        subst hpre
        simp only [runAction] at hfail
        cases henv : env m.up c.schema with
        | ok sch => rw [henv] at hfail; simp [Except.map] at hfail
        | error e2 =>
          rw [henv] at hfail
          simp [Except.map] at hfail
          subst hfail
          unfold applyLoop
          rw [if_pos hm]
          simp only [beginTx, curState, setCur, commitTx, rollbackTx, Option.getD]
          rw [henv]
          simp
      | cons m0 pre =>
        simp at hdec
        obtain ⟨hm0, hdec2⟩ := hdec
        subst hm0
        simp only [List.map_cons, runActions, runAction] at hpre
        cases henv : env m.up c.schema with
        | error e2 => rw [henv] at hpre; simp [Except.map, Except.bind] at hpre
        | ok sch =>
          rw [henv] at hpre
          simp only [Except.map, Except.bind] at hpre
          have hw := ih _ (tr ++ [MigAction.apply m]) pre mj suf d e hdec2 hpre hfail
          unfold applyLoop
          rw [if_pos hm]
          simp only [beginTx, curState, setCur, commitTx, Option.getD]
          rw [henv]
          simp only
          rw [hw]
          simp
    · rw [List.filter_cons_of_neg (by simpa using hm)] at hdec
      have hw := ih _ tr pre mj suf d e hdec hpre hfail
      unfold applyLoop
      rw [if_neg hm]
      exact hw

/- ===== Small list helpers for indexed decompositions. ===== -/

theorem take_succ_get (l : List α) :
    ∀ (k : Nat) (hk : k < l.length),
      l.take (k + 1) = l.take k ++ [l.get ⟨k, hk⟩] := by
  induction l with
  | nil => intro k hk; simp at hk
  | cons x xs ih =>
    intro k hk
    cases k with
    | zero => simp
    | succ k =>
      have hk2 : k < xs.length := by simpa using hk
      simp only [List.take_succ_cons, List.get, List.cons_append]
      exact congrArg (x :: ·) (ih k hk2)

theorem decomp_get (l : List α) :
    ∀ (k : Nat) (hk : k < l.length),
      l = l.take k ++ l.get ⟨k, hk⟩ :: l.drop (k + 1) := by
  induction l with
  | nil => intro k hk; simp at hk
  | cons x xs ih =>
    intro k hk
    cases k with
    | zero => simp
    | succ k =>
      have hk2 : k < xs.length := by simpa using hk
      simp only [List.take_succ_cons, List.get, List.drop_succ_cons, List.cons_append]
      exact congrArg (x :: ·) (ih k hk2)

/- ===== Assembly: migrate in terms of its plan. ===== -/

theorem migrate_success (env : ScriptEnv σ)
    (henv : ∀ q x, ∃ y, env q x = .ok y)
    (dir : Option (List (String × String))) (force : Bool) (c : DbState σ)
    (parsed : List ParsedMig) (hparse : readAndParse dir = .ok parsed) :
    ∃ d, migrate env dir force ⟨c, none⟩ =
      (.ok (), ⟨d, none⟩, migratePlan parsed force c.ledger) := by
  cases parsed with
  | nil =>
    refine ⟨c, ?_⟩
    unfold migrate migratePlan
    rw [hparse]
  | cons m0 rest =>
    obtain ⟨dR, hdR⟩ := runActions_total env henv
      (((sortDescBy DbMig.id (sortAscBy DbMig.id c.ledger)).takeWhile
          (eligibleRollback (m0 :: rest) force (lastIdD (m0 :: rest)))).map
        MigAction.rollback)
      { c with hasLedger := true }
    have hrb := rollbackLoop_ok env (m0 :: rest) force (lastIdD (m0 :: rest))
      (sortDescBy DbMig.id (sortAscBy DbMig.id c.ledger))
      (sortAscBy DbMig.id c.ledger) { c with hasLedger := true } [] dR hdR
    obtain ⟨dA, hdA⟩ := runActions_total env henv
      (((m0 :: rest).filter
          (fun m => lastRowIdD
            ((sortAscBy DbMig.id c.ledger).filter
              (fun x => !(((sortDescBy DbMig.id (sortAscBy DbMig.id c.ledger)).takeWhile
                  (eligibleRollback (m0 :: rest) force (lastIdD (m0 :: rest)))).any
                (fun y => y.id == x.id)))) < m.id)).map MigAction.apply)
      dR
    have hap := applyLoop_ok env
      (lastRowIdD
        ((sortAscBy DbMig.id c.ledger).filter
          (fun x => !(((sortDescBy DbMig.id (sortAscBy DbMig.id c.ledger)).takeWhile
              (eligibleRollback (m0 :: rest) force (lastIdD (m0 :: rest)))).any
            (fun y => y.id == x.id)))))
      (m0 :: rest) dR
      ([] ++ ((sortDescBy DbMig.id (sortAscBy DbMig.id c.ledger)).takeWhile
          (eligibleRollback (m0 :: rest) force (lastIdD (m0 :: rest)))).map
        MigAction.rollback)
      dA hdA
    refine ⟨dA, ?_⟩
    show migrate env dir force ⟨c, none⟩ = _
    unfold migrate
    rw [hparse]
    simp only [createLedgerTable, curState, setCur, Option.getD]
    rw [hrb]
    dsimp only
    rw [hap]
    simp [migratePlan]

/-- Splitting a mapped list at an element of its image. -/
theorem map_eq_append_cons (f : α → β) :
    ∀ (pre : List β) (l : List α) (x : β) (suf : List β),
      l.map f = pre ++ x :: suf →
      ∃ p a s, l = p ++ a :: s ∧ pre = p.map f ∧ x = f a ∧ suf = s.map f := by
  intro pre
  induction pre with
  | nil =>
    intro l x suf h
    cases l with
    | nil => simp at h
    | cons a l =>
      simp at h
      exact ⟨[], a, l, rfl, rfl, h.1.symm, h.2.symm⟩
  | cons b pre ih =>
    intro l x suf h
    cases l with
    | nil => simp at h
    | cons a l =>
      simp at h
      obtain ⟨hb, hrest⟩ := h
      obtain ⟨p, a2, s, hl, hpre, hx, hsuf⟩ := ih l x suf hrest
      exact ⟨a :: p, a2, s, by rw [hl]; simp, by simp [hpre, hb], hx, hsuf⟩

/-- Claim C3: each migration action runs in its own transaction together
with its ledger change; when an action of the plan fails after the actions
before it committed, that single transaction is rolled back (the final
committed state is exactly the state the earlier actions produced, with no
transaction left open), no later action of the plan is entered (the trace
ends at the failing action), and the underlying SQL error propagates. -/
theorem migrate_action_failure_transactional (env : ScriptEnv σ)
    (dir : Option (List (String × String))) (force : Bool) (c : DbState σ)
    (parsed : List ParsedMig) (pre : List MigAction) (failing : MigAction)
    (suf : List MigAction) (dk : DbState σ) (e : String)
    (hparse : readAndParse dir = .ok parsed)
    (hdec : migratePlan parsed force c.ledger = pre ++ failing :: suf)
    (hpre : runActions env pre { c with hasLedger := true } = .ok dk)
    (hfail : runAction env failing dk = .error e) :
    migrate env dir force ⟨c, none⟩ =
      (.error (.sql e), ⟨dk, none⟩, pre ++ [failing]) := by
  cases parsed with
  | nil => simp [migratePlan] at hdec
  | cons m0 rest =>
    have hplan : migratePlan (m0 :: rest) force c.ledger =
        ((sortDescBy DbMig.id (sortAscBy DbMig.id c.ledger)).takeWhile
            (eligibleRollback (m0 :: rest) force (lastIdD (m0 :: rest)))).map
          MigAction.rollback ++
        ((m0 :: rest).filter
            (fun m => lastRowIdD
              ((sortAscBy DbMig.id c.ledger).filter
                (fun x => !(((sortDescBy DbMig.id (sortAscBy DbMig.id c.ledger)).takeWhile
                    (eligibleRollback (m0 :: rest) force (lastIdD (m0 :: rest)))).any
                  (fun y => y.id == x.id)))) < m.id)).map MigAction.apply := rfl
    rw [hplan] at hdec
    have happly : ∀ mid : List MigAction,
        pre = ((sortDescBy DbMig.id (sortAscBy DbMig.id c.ledger)).takeWhile
            (eligibleRollback (m0 :: rest) force (lastIdD (m0 :: rest)))).map
          MigAction.rollback ++ mid →
        ((m0 :: rest).filter
            (fun m => lastRowIdD
              ((sortAscBy DbMig.id c.ledger).filter
                (fun x => !(((sortDescBy DbMig.id (sortAscBy DbMig.id c.ledger)).takeWhile
                    (eligibleRollback (m0 :: rest) force (lastIdD (m0 :: rest)))).any
                  (fun y => y.id == x.id)))) < m.id)).map MigAction.apply =
          mid ++ failing :: suf →
        migrate env dir force ⟨c, none⟩ =
          (.error (.sql e), ⟨dk, none⟩, pre ++ [failing]) := by
      intro mid hpre1 hA
      obtain ⟨preQ, mj, sufQ, hq, hmid2, hfailEq, _⟩ :=
        map_eq_append_cons MigAction.apply mid _ failing suf hA
      rw [hpre1] at hpre
      rw [runActions_append] at hpre
      cases hdR : runActions env
          (((sortDescBy DbMig.id (sortAscBy DbMig.id c.ledger)).takeWhile
            (eligibleRollback (m0 :: rest) force (lastIdD (m0 :: rest)))).map
            MigAction.rollback) { c with hasLedger := true } with
      | error e2 => rw [hdR] at hpre; simp [Except.bind] at hpre
      | ok dR =>
        rw [hdR] at hpre
        simp only [Except.bind] at hpre
        rw [hmid2] at hpre
        have hrb := rollbackLoop_ok env (m0 :: rest) force (lastIdD (m0 :: rest))
          (sortDescBy DbMig.id (sortAscBy DbMig.id c.ledger))
          (sortAscBy DbMig.id c.ledger) { c with hasLedger := true } [] dR hdR
        have hfail2 : runAction env (MigAction.apply mj) dk = .error e := by
          rw [← hfailEq]; exact hfail
        have hap := applyLoop_err env
          (lastRowIdD
            ((sortAscBy DbMig.id c.ledger).filter
              (fun x => !(((sortDescBy DbMig.id (sortAscBy DbMig.id c.ledger)).takeWhile
                  (eligibleRollback (m0 :: rest) force (lastIdD (m0 :: rest)))).any
                (fun y => y.id == x.id)))))
          (m0 :: rest) dR
          ([] ++ ((sortDescBy DbMig.id (sortAscBy DbMig.id c.ledger)).takeWhile
              (eligibleRollback (m0 :: rest) force (lastIdD (m0 :: rest)))).map
            MigAction.rollback)
          preQ mj sufQ dk e hq hpre hfail2
        unfold migrate
        rw [hparse]
        simp only [createLedgerTable, curState, setCur, Option.getD]
        rw [hrb]
        dsimp only
        rw [hap]
        rw [hpre1, hmid2, hfailEq]
        simp
    rcases List.append_eq_append_iff.mp hdec with ⟨mid, hpre1, hA⟩ | ⟨mid, hR, hmid⟩
    · exact happly mid hpre1 hA
    · cases mid with
      | nil =>
        simp only [List.append_nil] at hR
        simp only [List.nil_append] at hmid
        exact happly [] (by rw [hR, List.append_nil]) hmid.symm
      | cons c0 mid =>
        have hfs : failing = c0 ∧ suf = mid ++
            ((m0 :: rest).filter
              (fun m => lastRowIdD
                ((sortAscBy DbMig.id c.ledger).filter
                  (fun x => !(((sortDescBy DbMig.id (sortAscBy DbMig.id c.ledger)).takeWhile
                      (eligibleRollback (m0 :: rest) force (lastIdD (m0 :: rest)))).any
                    (fun y => y.id == x.id)))) < m.id)).map MigAction.apply := by
          rw [List.cons_append] at hmid
          exact ⟨(List.cons.injEq _ _ _ _ ▸ hmid).1, (List.cons.injEq _ _ _ _ ▸ hmid).2⟩
        obtain ⟨hfc0, _⟩ := hfs
        rw [← hfc0] at hR
        obtain ⟨preP, rowj, sufP, hp, hpreEq, hfailEq, _⟩ :=
          map_eq_append_cons MigAction.rollback pre _ failing mid hR
        rw [hpreEq] at hpre
        have hfail2 : runAction env (MigAction.rollback rowj) dk = .error e := by
          rw [← hfailEq]; exact hfail
        obtain ⟨w, hw⟩ := rollbackLoop_err env (m0 :: rest) force (lastIdD (m0 :: rest))
          (sortDescBy DbMig.id (sortAscBy DbMig.id c.ledger))
          (sortAscBy DbMig.id c.ledger) { c with hasLedger := true } []
          preP rowj sufP dk e hp hpre hfail2
        unfold migrate
        rw [hparse]
        simp only [createLedgerTable, curState, setCur, Option.getD]
        rw [hw]
        dsimp only
        rw [hpreEq, hfailEq]
        simp

/- ===== The code plan equals the reference plan (nonempty file sets). ===== -/

theorem sortAscBy_eq_nil_iff (key : α → Nat) (l : List α) :
    sortAscBy key l = [] ↔ l = [] := by
  constructor
  · intro h
    cases l with
    | nil => rfl
    | cons x xs =>
      have hx : x ∈ sortAscBy key (x :: xs) := (mem_sortAscBy key _ x).mpr (by simp)
      rw [h] at hx
      simp at hx
  · intro h
    subst h
    rfl

theorem migratePlan_eq_specPlan (parsed : List ParsedMig) (force : Bool)
    (ledger : List DbMig)
    (hsorted : parsed.Pairwise (fun a b => a.id ≤ b.id)) (hne : parsed ≠ []) :
    migratePlan parsed force ledger = specPlan parsed force ledger := by
  cases parsed with
  | nil => exact absurd rfl hne
  | cons m0 rest =>
    have h1 : lastIdD (m0 :: rest) = maxIdFiles (m0 :: rest) :=
      lastKeyD_eq_foldrMaxKey ParsedMig.id _ hsorted
    have hsort2 : ((sortAscBy DbMig.id ledger).filter
        (fun x => !(((sortDescBy DbMig.id (sortAscBy DbMig.id ledger)).takeWhile
            (eligibleRollback (m0 :: rest) force (lastIdD (m0 :: rest)))).any
          (fun y => y.id == x.id)))).Pairwise (fun a b => a.id ≤ b.id) :=
      List.Pairwise.sublist (List.filter_sublist _) (pairwise_sortAscBy DbMig.id ledger)
    have h2 : lastRowIdD ((sortAscBy DbMig.id ledger).filter
        (fun x => !(((sortDescBy DbMig.id (sortAscBy DbMig.id ledger)).takeWhile
            (eligibleRollback (m0 :: rest) force (lastIdD (m0 :: rest)))).any
          (fun y => y.id == x.id)))) =
        maxIdRows ((sortAscBy DbMig.id ledger).filter
        (fun x => !(((sortDescBy DbMig.id (sortAscBy DbMig.id ledger)).takeWhile
            (eligibleRollback (m0 :: rest) force (lastIdD (m0 :: rest)))).any
          (fun y => y.id == x.id)))) :=
      lastKeyD_eq_foldrMaxKey DbMig.id _ hsort2
    unfold migratePlan specPlan
    dsimp only
    rw [h2, h1]
    rfl

/- ===== Occurrence lemmas for rollbackThenApply. ===== -/

theorem hasApplyId_append (n : Nat) :
    ∀ l1 l2 : List MigAction,
      hasApplyId n (l1 ++ l2) = (hasApplyId n l1 || hasApplyId n l2) := by
  intro l1
  induction l1 with
  | nil => intro l2; simp [hasApplyId]
  | cons a l1 ih =>
    intro l2
    cases a with
    | rollback r => simp [hasApplyId, ih]
    | apply m => simp [hasApplyId, ih, Bool.or_assoc]

theorem hasApplyId_map_rollback (n : Nat) :
    ∀ l : List DbMig, hasApplyId n (l.map MigAction.rollback) = false := by
  intro l
  induction l with
  | nil => rfl
  | cons r l ih => simpa [hasApplyId] using ih

theorem hasApplyId_map_apply_of_mem (n : Nat) :
    ∀ (q : List ParsedMig) (m : ParsedMig), m ∈ q → m.id = n →
      hasApplyId n (q.map MigAction.apply) = true := by
  intro q
  induction q with
  | nil => intro m h; simp at h
  | cons a q ih =>
    intro m hm hid
    rcases List.mem_cons.mp hm with rfl | hm
    · simp [hasApplyId, hid]
    · simp [hasApplyId, ih m hm hid]

/-- Under the force policy, when the highest ledger id is positive and
equals the highest migration file id, the plan reaches a Rollback of that
id and later an Apply of it. -/
theorem plan_reapplies (parsed : List ParsedMig) (ledger : List DbMig)
    (hsorted : parsed.Pairwise (fun a b => a.id ≤ b.id))
    (hne : parsed ≠ []) (hled : ledger ≠ [])
    (hN : maxIdFiles parsed = maxIdRows ledger)
    (hpos : 0 < maxIdRows ledger) :
    rollbackThenApply (maxIdRows ledger) (migratePlan parsed true ledger) = true := by
  cases parsed with
  | nil => exact absurd rfl hne
  | cons m0 rest =>
    have hrowsne : sortAscBy DbMig.id ledger ≠ [] := by
      intro h
      exact hled ((sortAscBy_eq_nil_iff DbMig.id ledger).mp h)
    have hscanne : sortDescBy DbMig.id (sortAscBy DbMig.id ledger) ≠ [] := by
      intro h
      exact hrowsne ((sortDescBy_eq_nil_iff DbMig.id _).mp h)
    obtain ⟨h0, t, hscan⟩ : ∃ h0 t,
        sortDescBy DbMig.id (sortAscBy DbMig.id ledger) = h0 :: t := by
      cases hd : sortDescBy DbMig.id (sortAscBy DbMig.id ledger) with
      | nil => exact absurd hd hscanne
      | cons a b => exact ⟨a, b, rfl⟩
    have hmemled : ∀ x : DbMig,
        x ∈ sortDescBy DbMig.id (sortAscBy DbMig.id ledger) → x ∈ ledger := by
      intro x hx
      exact (mem_sortAscBy DbMig.id ledger x).mp
        ((mem_sortDescBy DbMig.id _ x).mp hx)
    have hh0led : h0 ∈ ledger := hmemled h0 (by rw [hscan]; simp)
    have hle1 : h0.id ≤ maxIdRows ledger := le_foldrMaxKey DbMig.id ledger h0 hh0led
    have h0id : h0.id = maxIdRows ledger := by
      rcases foldrMaxKey_zero_or_mem DbMig.id ledger with hz | ⟨m, hm, hmid⟩
      · exact absurd hz (by
          intro hz2
          rw [show maxIdRows ledger = foldrMaxKey DbMig.id ledger from rfl, hz2] at hpos
          simp at hpos)
      · have hmscan : m ∈ sortDescBy DbMig.id (sortAscBy DbMig.id ledger) :=
          (mem_sortDescBy DbMig.id _ m).mpr ((mem_sortAscBy DbMig.id ledger m).mpr hm)
        rw [hscan] at hmscan
        rcases List.mem_cons.mp hmscan with rfl | hmt
        · exact hmid
        · have hpair := pairwise_sortDescBy DbMig.id (sortAscBy DbMig.id ledger)
          rw [hscan, List.pairwise_cons] at hpair
          have h3 : m.id = maxIdRows ledger := hmid
          have : m.id ≤ h0.id := hpair.1 m hmt
          omega
    have h1 : lastIdD (m0 :: rest) = maxIdRows ledger := by
      show lastKeyD ParsedMig.id (m0 :: rest) = maxIdRows ledger
      rw [lastKeyD_eq_foldrMaxKey ParsedMig.id _ hsorted]
      exact hN
    have helig : eligibleRollback (m0 :: rest) true (lastIdD (m0 :: rest)) h0 = true := by
      unfold eligibleRollback
      rw [h1]
      simp [h0id]
    have hmjlast : (m0 :: rest).getLast (by simp) ∈ (m0 :: rest) := List.getLast_mem _
    have hmjid : ((m0 :: rest).getLast (by simp)).id = maxIdRows ledger := by
      have hsome : (m0 :: rest).getLast? = some ((m0 :: rest).getLast (by simp)) :=
        List.getLast?_eq_getLast _ _
      have : lastIdD (m0 :: rest) = ((m0 :: rest).getLast (by simp)).id := by
        unfold lastIdD lastKeyD
        rw [hsome]
      omega
    unfold migratePlan
    dsimp only
    rw [hscan, List.takeWhile_cons_of_pos helig]
    have hbound : lastRowIdD ((sortAscBy DbMig.id ledger).filter
        (fun r => !((h0 :: (List.takeWhile
            (eligibleRollback (m0 :: rest) true (lastIdD (m0 :: rest))) t)).any
          (fun x => x.id == r.id)))) < maxIdRows ledger := by
      have hsub : ((sortAscBy DbMig.id ledger).filter
          (fun r => !((h0 :: (List.takeWhile
              (eligibleRollback (m0 :: rest) true (lastIdD (m0 :: rest))) t)).any
            (fun x => x.id == r.id)))).Pairwise (fun a b => a.id ≤ b.id) :=
        List.Pairwise.sublist (List.filter_sublist _) (pairwise_sortAscBy DbMig.id ledger)
      have hlt : ∀ x : DbMig, x ∈ ((sortAscBy DbMig.id ledger).filter
          (fun r => !((h0 :: (List.takeWhile
              (eligibleRollback (m0 :: rest) true (lastIdD (m0 :: rest))) t)).any
            (fun x => x.id == r.id)))) → x.id < maxIdRows ledger := by
        intro x hx
        obtain ⟨hxrows, hxpred⟩ := List.mem_filter.mp hx
        have hxled : x ∈ ledger := (mem_sortAscBy DbMig.id ledger x).mp hxrows
        have hxle : x.id ≤ maxIdRows ledger := le_foldrMaxKey DbMig.id ledger x hxled
        have hxne : x.id ≠ maxIdRows ledger := by
          intro hxeq
          simp only [List.any_cons, Bool.not_or, Bool.and_eq_true,
            Bool.not_eq_true'] at hxpred
          have : (h0.id == x.id) = false := hxpred.1
          rw [hxeq, ← h0id] at this
          simp at this
        omega
      have hrw : lastRowIdD ((sortAscBy DbMig.id ledger).filter
          (fun r => !((h0 :: (List.takeWhile
              (eligibleRollback (m0 :: rest) true (lastIdD (m0 :: rest))) t)).any
            (fun x => x.id == r.id)))) =
          foldrMaxKey DbMig.id ((sortAscBy DbMig.id ledger).filter
          (fun r => !((h0 :: (List.takeWhile
              (eligibleRollback (m0 :: rest) true (lastIdD (m0 :: rest))) t)).any
            (fun x => x.id == r.id)))) :=
        lastKeyD_eq_foldrMaxKey DbMig.id _ hsub
      rw [hrw]
      rcases foldrMaxKey_zero_or_mem DbMig.id ((sortAscBy DbMig.id ledger).filter
          (fun r => !((h0 :: (List.takeWhile
              (eligibleRollback (m0 :: rest) true (lastIdD (m0 :: rest))) t)).any
            (fun x => x.id == r.id)))) with hz | ⟨a, ha, haid⟩
      · rw [hz]
        exact hpos
      · rw [← haid]
        exact hlt a ha
    have happ : hasApplyId (maxIdRows ledger)
        (((m0 :: rest).filter (fun m => lastRowIdD ((sortAscBy DbMig.id ledger).filter
            (fun r => !((h0 :: (List.takeWhile
                (eligibleRollback (m0 :: rest) true (lastIdD (m0 :: rest))) t)).any
              (fun x => x.id == r.id)))) < m.id)).map MigAction.apply) = true := by
      refine hasApplyId_map_apply_of_mem _ _ ((m0 :: rest).getLast (by simp)) ?_ hmjid
      refine List.mem_filter.mpr ⟨hmjlast, ?_⟩
      simp only [decide_eq_true_eq]
      omega
    simp only [List.map_cons, List.cons_append, rollbackThenApply, List.append_eq]
    rw [hasApplyId_append, hasApplyId_map_rollback, happ]
    simp [h0id]

deriving instance DecidableEq for Except

/- ===== Concrete fixtures used by the counterexamples and witnesses. ===== -/

def exEnvU : ScriptEnv Unit := fun _ s => .ok s

def exContent1 : String := "U1\n-- Down\nD1"

def exContent2 : String := "U2\n-- Down\nD2"

def exContent3 : String := "U3\n-- Down\nD3"

def exRow1 : DbMig := { id := 1, name := "a", up := "U1", down := "D1" }

def exRow3 : DbMig := { id := 3, name := "c", up := "U3", down := "D3" }

def exState13 : Sqlite Unit :=
  { committed := { hasLedger := true, ledger := [exRow1, exRow3], schema := () }, txn := none }

def exStateL1 : Sqlite Unit :=
  { committed := { hasLedger := true, ledger := [exRow1], schema := () }, txn := none }

def exDir123 : List (String × String) :=
  [("001-a.sql", exContent1), ("002-b.sql", exContent2), ("003-c.sql", exContent3)]

def exDir12 : List (String × String) :=
  [("001-a.sql", exContent1), ("002-b.sql", exContent2)]

def exDir1 : List (String × String) := [("001-a.sql", exContent1)]

def exDirBad : List (String × String) := [("001-a.sql", "no down marker here")]

/- ===== Claim C2. ===== -/

/-- Claim C2 counterexample: with ledger row id 1 and an empty on-disk
migration file set, migrate() returns as a no-op with an empty action
trace, while the reference reconciliation algorithm (every ledger row
without a matching file is rollback-eligible) schedules Rollback(1); the
executed trace therefore differs from the reference plan at this input. -/
theorem migrate_empty_fileset_counterexample :
    migrate exEnvU (some []) false exStateL1 = (.ok (), exStateL1, []) ∧
    specPlan [] false exStateL1.committed.ledger = [MigAction.rollback exRow1] ∧
    (migrate exEnvU (some []) false exStateL1).2.2 ≠
      specPlan [] false exStateL1.committed.ledger := by
  refine ⟨by decide, by decide, by decide⟩

/-- Claim C2 (amended): for every ledger state and every NONEMPTY on-disk
migration file set, a migrate() run in which every script succeeds executes
exactly the plan of the reference reconciliation algorithm (rollback scan
from highest id to lowest with the contiguous-suffix stop rule, then apply
every file above the highest remaining ledger id ascending); with an empty
file set migrate() is a no-op.  In particular, with ledger rows {1,3} and
files {1,2,3}, nothing is rolled back and nothing is applied. -/
theorem migrate_executes_reference_plan (env : ScriptEnv σ)
    (henv : ∀ q x, ∃ y, env q x = .ok y)
    (dir : Option (List (String × String))) (force : Bool) (c : DbState σ)
    (parsed : List ParsedMig)
    (hparse : readAndParse dir = .ok parsed) (hne : parsed ≠ []) :
    (∃ d, migrate env dir force ⟨c, none⟩ =
      (.ok (), ⟨d, none⟩, specPlan parsed force c.ledger)) ∧
    migrate exEnvU (some exDir123) false exState13 = (.ok (), exState13, []) := by
  constructor
  · obtain ⟨d, hd⟩ := migrate_success env henv dir force c parsed hparse
    refine ⟨d, ?_⟩
    rw [hd, migratePlan_eq_specPlan parsed force c.ledger
      (readAndParse_sorted dir parsed hparse) hne]
  · decide

/- ===== Claim C5. ===== -/

/-- Claim C5 counterexample: the ledger highest id is 1 and an on-disk file
with id 1 exists, yet with files {1,2} under the force policy migrate()
executes only Apply(2) — the forced rollback targets the highest FILE id
(2, not in the ledger), so neither Rollback(1) nor Apply(1) happens. -/
theorem force_last_counterexample :
    maxIdRows exStateL1.committed.ledger = 1 ∧
    readAndParse (some exDir12) =
      .ok [{ id := 1, name := "a", filename := "001-a.sql", up := "U1", down := "D1" },
           { id := 2, name := "b", filename := "002-b.sql", up := "U2", down := "D2" }] ∧
    (migrate exEnvU (some exDir12) true exStateL1).2.2 =
      [MigAction.apply { id := 2, name := "b", filename := "002-b.sql",
                         up := "U2", down := "D2" }] ∧
    rollbackThenApply 1 (migrate exEnvU (some exDir12) true exStateL1).2.2 = false := by
  refine ⟨by decide, by decide, by decide, by decide⟩

/-- Claim C5 (amended): for every nonempty ledger whose highest id N is
positive and is also the highest id among the on-disk migration file ids,
a fully successful migrate() run under the force policy executes
Rollback(N) followed (later in the trace) by Apply(N), even when the
script content of N is unchanged. -/
theorem force_last_reapplies_highest (env : ScriptEnv σ)
    (henv : ∀ q x, ∃ y, env q x = .ok y)
    (dir : Option (List (String × String))) (c : DbState σ)
    (parsed : List ParsedMig)
    (hparse : readAndParse dir = .ok parsed)
    (hne : parsed ≠ []) (hled : c.ledger ≠ [])
    (hN : maxIdFiles parsed = maxIdRows c.ledger)
    (hpos : 0 < maxIdRows c.ledger) :
    ∃ d, migrate env dir true ⟨c, none⟩ =
        (.ok (), ⟨d, none⟩, migratePlan parsed true c.ledger) ∧
      rollbackThenApply (maxIdRows c.ledger) (migratePlan parsed true c.ledger) = true := by
  obtain ⟨d, hd⟩ := migrate_success env henv dir true c parsed hparse
  exact ⟨d, hd, plan_reapplies parsed c.ledger
    (readAndParse_sorted dir parsed hparse) hne hled hN hpos⟩

/- ===== Claim C6. ===== -/

/-- Claim C6 counterexample: with the migrations directory missing,
migrate() propagates the directory-listing failure (fs.readdirSync throws
ENOENT at database.js line 430) instead of returning successfully as a
no-op. -/
theorem migrate_missing_directory_counterexample :
    migrate exEnvU none false exStateL1 = (.error .enoent, exStateL1, []) ∧
    (migrate exEnvU none false exStateL1).1 ≠ .ok () := by
  refine ⟨by decide, by decide⟩

/-- Claim C6 (amended): when the migrations directory exists but contains
no file matching the migration filename pattern, migrate() returns
successfully as a no-op with the database state untouched and no action
executed; when the directory is missing, the directory-listing error
propagates instead. -/
theorem migrate_no_matching_files_noop (env : ScriptEnv σ) (force : Bool) (s : Sqlite σ) :
    (∀ lst : List (String × String),
      readMigrationEntries (lst.map (fun p => p.1)) = [] →
      migrate env (some lst) force s = (.ok (), s, [])) ∧
    migrate env none force s = (.error .enoent, s, []) := by
  constructor
  · intro lst hempty
    have hparse : readAndParse (some lst) = .ok [] := by
      show parseMigrations (contentOf lst)
        (readMigrationEntries (lst.map (fun p => p.1))) = .ok []
      rw [hempty]
      rfl
    unfold migrate
    rw [hparse]
  · rfl

/- ===== Claim C7. ===== -/

theorem parseMigrations_malformed (content : String → String) :
    ∀ es : List MigEntry,
      (∃ e ∈ es, splitUpDown (content e.filename) = none) →
      ∃ fname, parseMigrations content es = .error (.malformed fname) ∧
        ∃ e ∈ es, e.filename = fname ∧ splitUpDown (content e.filename) = none := by
  intro es
  induction es with
  | nil =>
    intro h
    obtain ⟨e, he, _⟩ := h
    simp at he
  | cons e es ih =>
    intro h
    cases hs : splitUpDown (content e.filename) with
    | none =>
      refine ⟨e.filename, ?_, e, by simp, rfl, hs⟩
      unfold parseMigrations
      rw [hs]
    | some ud =>
      obtain ⟨e2, he2, hsplit⟩ := h
      rcases List.mem_cons.mp he2 with rfl | he2t
      · rw [hs] at hsplit
        exact absurd hsplit (by simp)
      · obtain ⟨fname, hparse, e3, he3, hfn, hsp⟩ := ih ⟨e2, he2t, hsplit⟩
        refine ⟨fname, ?_, e3, by simp [he3], hfn, hsp⟩
        unfold parseMigrations
        rw [hs, hparse]
        rfl

/-- Claim C7: when some listed migration file body lacks a line matching
the down-section marker, migrate() fails with a malformed-migration error
naming a file whose body fails the down split, and it fails before the
ledger table is created and before any transaction opens: the database
state is returned untouched and the action trace is empty. -/
theorem migrate_malformed_fails_before_db (env : ScriptEnv σ) (force : Bool)
    (lst : List (String × String)) (s : Sqlite σ)
    (hmal : ∃ e ∈ readMigrationEntries (lst.map (fun p => p.1)),
      splitUpDown (contentOf lst e.filename) = none) :
    ∃ fname, migrate env (some lst) force s = (.error (.malformed fname), s, []) ∧
      ∃ e ∈ readMigrationEntries (lst.map (fun p => p.1)),
        e.filename = fname ∧ splitUpDown (contentOf lst e.filename) = none := by
  obtain ⟨fname, hparse, hwit⟩ := parseMigrations_malformed (contentOf lst) _ hmal
  refine ⟨fname, ?_, hwit⟩
  have hrap : readAndParse (some lst) = .error (.malformed fname) := by
    show parseMigrations (contentOf lst)
      (readMigrationEntries (lst.map (fun p => p.1))) = .error (.malformed fname)
    exact hparse
  unfold migrate
  rw [hrap]

/- ===== Claim C1. ===== -/

def c1Opts : DBOptions :=
  { path := "./data/sqlite3.db", migrate := true, WAL := false,
    readOnly := false, fileMustExist := false, memory := false }

def c1Inst : DBInst := { options := c1Opts }

def c1EnvMigFail : ConnEnv :=
  { mkdir := .ok (), openDb := .ok 7, walPragma := .ok (),
    migrateRun := .error "MigrationError" }

def c1EnvOk : ConnEnv :=
  { mkdir := .ok (), openDb := .ok 7, walPragma := .ok (), migrateRun := .ok () }

def c1EnvOpenFail : ConnEnv :=
  { mkdir := .ok (), openDb := .error "OpenError", walPragma := .ok (),
    migrateRun := .ok () }

/-- Claim C1: when the migration step of connection() fails, the call
rejects but — contrary to the claim — this.db stays assigned and the lock
stays held (lines 49-54 run outside the try/catch of lines 38-48), so a
subsequent connection() call blocks forever on acquireAsync instead of
retrying.  Only a directory-creation or native-open failure reverts the
state and lets the next call retry the full sequence. -/
theorem connection_migrate_failure_keeps_handle_and_lock :
    (connectionSeq c1EnvMigFail c1Inst).1 = .error "MigrationError" ∧
    (connectionSeq c1EnvMigFail c1Inst).2.db = some 7 ∧
    (connectionSeq c1EnvMigFail c1Inst).2.lockHeld = true ∧
    (connectionSeq c1EnvOk (connectionSeq c1EnvMigFail c1Inst).2).1 = .blocked ∧
    (connectionSeq c1EnvOpenFail c1Inst).1 = .error "OpenError" ∧
    (connectionSeq c1EnvOpenFail c1Inst).2.db = none ∧
    (connectionSeq c1EnvOpenFail c1Inst).2.lockHeld = false ∧
    (connectionSeq c1EnvOk (connectionSeq c1EnvOpenFail c1Inst).2).1 = .ok 7 := by
  decide

/- ===== Claim C9. ===== -/

/-- Claim C9: the native open call receives only the path — the read-only,
must-exist and in-memory flags never reach the driver — so under the
default create-if-missing mode a connection with fileMustExist (or
readOnly) set and no database file present succeeds and creates the file,
instead of failing with an open error as the claim (and the repository
tests and README) require. -/
theorem connection_open_ignores_flags :
    (∀ (opts : DBOptions) (fs : FsState),
      connectionOpenStep opts fs =
        sqlite3DatabaseDefault opts.path { fs with dirExists := true }) ∧
    connectionOpenStep
      { path := "p", migrate := false, WAL := true, readOnly := false,
        fileMustExist := true, memory := false }
      { dirExists := true, fileExists := false } =
      (.ok 0, { dirExists := true, fileExists := true }) ∧
    connectionOpenStep
      { path := "p", migrate := false, WAL := true, readOnly := true,
        fileMustExist := false, memory := false }
      { dirExists := true, fileExists := false } =
      (.ok 0, { dirExists := true, fileExists := true }) := by
  refine ⟨fun opts fs => rfl, by decide, by decide⟩

/- ===== Claim C10. ===== -/

/-- Claim C10: two DB(options) calls without the new keyword on a fresh
module state return the exact same stored instance; the options of the
second call have no effect, and the instance keeps the first call options
merged over the defaults. -/
theorem db_singleton_ignores_later_options (o1 o2 : DBOptionsArg) :
    (dbCall o2 (dbCall o1 none).2).1 = (dbCall o1 none).1 ∧
    (dbCall o2 (dbCall o1 none).2).2 = some (dbCall o1 none).1 ∧
    ((dbCall o2 (dbCall o1 none).2).1).options = assignDefaults o1 := by
  exact ⟨rfl, rfl, rfl⟩

/- ===== Claim C8. ===== -/

/-- Peeling busy responses off the retry loop: n consecutive busy answers
consume n units of the tries budget and accrue 50 ms each. -/
theorem tryToClose_busy_prefix (resp : Nat → CloseResp) :
    ∀ (n t k : Nat), n ≤ t → (∀ i, i < n → resp (k + i) = .busy) →
      tryToClose resp k t =
        ((tryToClose resp (k + n) (t - n)).1,
         (tryToClose resp (k + n) (t - n)).2 + 50 * n) := by
  intro n
  induction n with
  | zero => intro t k _ _; simp
  | succ n ih =>
    intro t k hle hb
    have hk : resp k = .busy := by
      have := hb 0 (by omega)
      simpa using this
    cases t with
    | zero => omega
    | succ t =>
      have hstep : tryToClose resp k (t + 1) =
          ((tryToClose resp (k + 1) t).1, (tryToClose resp (k + 1) t).2 + 50) := by
        conv_lhs => rw [tryToClose.eq_def]
        dsimp only
        rw [hk]
      rw [hstep, ih t (k + 1) (by omega) (fun i hi => by
        have hbi := hb (i + 1) (by omega)
        rw [show k + 1 + i = k + (i + 1) by omega]
        exact hbi)]
      dsimp only
      have h1 : k + 1 + n = k + (n + 1) := by omega
      have h2 : t - n = t + 1 - (n + 1) := by omega
      rw [h1, h2]
      simp only [Prod.mk.injEq]
      exact ⟨trivial, by omega⟩

/-- Claim C8: close() on an open connection retries a transient busy
failure with a fixed ~50 ms backoff under a bounded budget: nine
consecutive busy responses followed by a success on the tenth attempt
resolve successfully (having accrued 9 x 50 ms of backoff), while eleven
consecutive busy responses surface the busy error. -/
theorem close_busy_retry_budget :
    (∀ (resp : Nat → CloseResp) (inst : DBInst) (h : Nat),
      inst.db = some h →
      (∀ k, k < 9 → resp k = .busy) → resp 9 = .ok →
      closeDB resp inst = (.ok (), 450, { inst with db := none })) ∧
    (∀ (resp : Nat → CloseResp) (inst : DBInst) (h : Nat),
      inst.db = some h →
      (∀ k, k < 11 → resp k = .busy) →
      (closeDB resp inst).1 = .error "SQLITE_BUSY") := by
  constructor
  · intro resp inst h hh hb h9
    have hpre := tryToClose_busy_prefix resp 9 10 0 (by omega)
      (fun i hi => by
        have := hb i hi
        simpa using this)
    have h1 : tryToClose resp (0 + 9) (10 - 9) = (.ok (), 0) := by
      conv_lhs => rw [tryToClose.eq_def]
      dsimp only
      rw [show (0 + 9 : Nat) = 9 from rfl, h9]
    have h10 : tryToClose resp 0 10 = (.ok (), 450) := by
      rw [hpre, h1]
    unfold closeDB
    rw [hh]
    dsimp only
    rw [h10]
  · intro resp inst h hh hb
    have hpre := tryToClose_busy_prefix resp 10 10 0 (by omega)
      (fun i hi => by
        have := hb i (by omega)
        simpa using this)
    have h1 : tryToClose resp (0 + 10) (10 - 10) = (.error "SQLITE_BUSY", 0) := by
      conv_lhs => rw [tryToClose.eq_def]
      dsimp only
      rw [show (0 + 10 : Nat) = 10 from rfl, hb 10 (by omega)]
    have h10 : (tryToClose resp 0 10).1 = .error "SQLITE_BUSY" := by
      rw [hpre, h1]
    unfold closeDB
    rw [hh]
    dsimp only
    rw [h10]

/- ===== Claim C4: at most one open+migrate sequence under concurrency. ===== -/

/-- A task holding the guarded section strictly between the native open and
its final release (it has performed the open and not yet released). -/
def isOW (pc : TaskPc) : Prop := pc = TaskPc.opened ∨ pc = TaskPc.walDone

/-- Safety invariant of the concurrent first-use model: the cached handle
determines the open count, at most one task ever sits between open and
release, the migrate counter never exceeds one, and every successful
completion carries the unique handle 0. -/
structure ConcInv {n : Nat} (c : ConcState n) : Prop where
  dbNone : c.db = none → c.opens = 0 ∧ c.migrates = 0 ∧ c.nextHandle = 0 ∧
    ∀ i : Fin n, ¬ isOW (c.pcs i) ∧
      ∀ h, c.pcs i ≠ TaskPc.done (ConnOutcome.ok h)
  dbSome : ∀ h, c.db = some h → h = 0 ∧ c.opens = 1 ∧ c.nextHandle = 1
  migratesLe : c.migrates ≤ 1
  owNoMigrate : ∀ i : Fin n, isOW (c.pcs i) → c.migrates = 0
  owUnique : ∀ i j : Fin n, isOW (c.pcs i) → isOW (c.pcs j) → i = j
  doneHandle : ∀ (i : Fin n) (h : Nat),
    c.pcs i = TaskPc.done (ConnOutcome.ok h) → h = 0

theorem concInv_init (n : Nat) : ConcInv (initConc n) := by
  refine ⟨?_, ?_, ?_, ?_, ?_, ?_⟩
  · intro _
    refine ⟨rfl, rfl, rfl, ?_⟩
    intro i
    constructor
    · intro how
      simp [initConc, isOW] at how
    · intro h hd
      simp [initConc] at hd
  · intro h hh
    simp [initConc] at hh
  · simp [initConc]
  · intro i how
    simp [initConc, isOW] at how
  · intro i j hi _
    simp [initConc, isOW] at hi
  · intro i h hd
    simp [initConc] at hd

/-- Invariant transfer along a step that only relocates tasks out of the
open-to-release window, adds successful completions carrying the unique
handle, and bumps the migrate counter only when the window empties. -/
theorem concInv_mono {n : Nat} {c cp : ConcState n}
    (hdb : cp.db = c.db) (ho : cp.opens = c.opens) (hh : cp.nextHandle = c.nextHandle)
    (hm : cp.migrates = c.migrates ∨
      (cp.migrates = 1 ∧ c.db = some 0 ∧ ∀ j : Fin n, ¬ isOW (cp.pcs j)))
    (hpcs : ∀ j : Fin n, (isOW (cp.pcs j) → isOW (c.pcs j)) ∧
      (∀ h, cp.pcs j = TaskPc.done (ConnOutcome.ok h) →
        c.pcs j = TaskPc.done (ConnOutcome.ok h) ∨ (h = 0 ∧ c.db = some 0)))
    (hinv : ConcInv c) : ConcInv cp := by
  obtain ⟨dbNone, dbSome, migratesLe, owNoMigrate, owUnique, doneHandle⟩ := hinv
  refine ⟨?_, ?_, ?_, ?_, ?_, ?_⟩
  · intro hnone
    rw [hdb] at hnone
    obtain ⟨h1, h2, h3, h4⟩ := dbNone hnone
    refine ⟨by rw [ho]; exact h1, ?_, by rw [hh]; exact h3, ?_⟩
    · rcases hm with hm | ⟨_, hsome, _⟩
      · rw [hm]; exact h2
      · rw [hnone] at hsome
        simp at hsome
    · intro j
      constructor
      · intro how
        exact (h4 j).1 ((hpcs j).1 how)
      · intro h hd
        rcases (hpcs j).2 h hd with hold | ⟨_, hsome⟩
        · exact (h4 j).2 h hold
        · rw [hnone] at hsome
          simp at hsome
  · intro h hsome
    rw [hdb] at hsome
    obtain ⟨ha, hb, hc⟩ := dbSome h hsome
    exact ⟨ha, by rw [ho]; exact hb, by rw [hh]; exact hc⟩
  · rcases hm with hm | ⟨hm1, _, _⟩
    · rw [hm]; exact migratesLe
    · omega
  · intro j how
    rcases hm with hm | ⟨_, _, hno⟩
    · rw [hm]; exact owNoMigrate j ((hpcs j).1 how)
    · exact absurd how (hno j)
  · intro a b ha hb
    exact owUnique a b ((hpcs a).1 ha) ((hpcs b).1 hb)
  · intro j h hd
    rcases (hpcs j).2 h hd with hold | ⟨h0, _⟩
    · exact doneHandle j h hold
    · exact h0

theorem concInv_releaseLock {n : Nat} (c : ConcState n) (hinv : ConcInv c) :
    ConcInv (releaseLock c) := by
  obtain ⟨db, lockHeld, queue, pcs, nextHandle, opens, migrates⟩ := c
  cases queue with
  | nil =>
    exact @concInv_mono n ⟨db, lockHeld, [], pcs, nextHandle, opens, migrates⟩ _
      rfl rfl rfl (Or.inl rfl) (fun j => ⟨fun hw => hw, fun h hd => Or.inl hd⟩) hinv
  | cons j0 rest =>
    refine @concInv_mono n ⟨db, lockHeld, j0 :: rest, pcs, nextHandle, opens, migrates⟩ _
      rfl rfl rfl (Or.inl rfl) ?_ hinv
    intro j
    constructor
    · intro how
      rcases eq_or_ne j j0 with rfl | hj
      · rw [show (releaseLock ⟨db, lockHeld, j :: rest, pcs, nextHandle, opens, migrates⟩).pcs j
            = TaskPc.gotLock from by
          unfold releaseLock
          exact Function.update_same j TaskPc.gotLock pcs] at how
        simp [isOW] at how
      · rw [show (releaseLock ⟨db, lockHeld, j0 :: rest, pcs, nextHandle, opens, migrates⟩).pcs j
            = pcs j from by
          unfold releaseLock
          exact Function.update_noteq hj TaskPc.gotLock pcs] at how
        exact how
    · intro h hd
      rcases eq_or_ne j j0 with rfl | hj
      · rw [show (releaseLock ⟨db, lockHeld, j :: rest, pcs, nextHandle, opens, migrates⟩).pcs j
            = TaskPc.gotLock from by
          unfold releaseLock
          exact Function.update_same j TaskPc.gotLock pcs] at hd
        simp at hd
      · rw [show (releaseLock ⟨db, lockHeld, j0 :: rest, pcs, nextHandle, opens, migrates⟩).pcs j
            = pcs j from by
          unfold releaseLock
          exact Function.update_noteq hj TaskPc.gotLock pcs] at hd
        exact Or.inl hd

/-- Benign relocations (into start, waiting, gotLock, or a failed done)
preserve the invariant whatever happens to the lock bookkeeping. -/
theorem concInv_update_benign {n : Nat} (c : ConcState n) (hinv : ConcInv c)
    (i : Fin n) (pc2 : TaskPc) (h1 : ¬ isOW pc2)
    (h2 : ∀ h, pc2 ≠ TaskPc.done (ConnOutcome.ok h))
    (q2 : List (Fin n)) (lh2 : Bool) :
    ConcInv
      { c with
        queue := q2
        lockHeld := lh2
        pcs := Function.update c.pcs i pc2 } := by
  refine @concInv_mono n c _ rfl rfl rfl (Or.inl rfl) ?_ hinv
  intro j
  constructor
  · intro how
    simp only [Function.update_apply] at how
    by_cases hj : j = i
    · rw [if_pos hj] at how
      exact absurd how h1
    · rw [if_neg hj] at how
      exact how
  · intro h hd
    simp only [Function.update_apply] at hd
    by_cases hj : j = i
    · rw [if_pos hj] at hd
      exact absurd hd (h2 h)
    · rw [if_neg hj] at hd
      exact Or.inl hd

theorem concInv_step {n : Nat} (i : Fin n) (c : ConcState n) (hinv : ConcInv c) :
    ConcInv (stepTask i c) := by
  cases hpc : c.pcs i with
  | start =>
    have hstep : stepTask i c = if c.lockHeld then
        { c with queue := c.queue ++ [i], pcs := Function.update c.pcs i TaskPc.waiting }
      else
        { c with lockHeld := true, pcs := Function.update c.pcs i TaskPc.gotLock } := by
      unfold stepTask
      rw [hpc]
    rw [hstep]
    by_cases hl : c.lockHeld = true
    · rw [if_pos hl]
      exact concInv_update_benign c hinv i TaskPc.waiting (by simp [isOW]) (by simp)
        (c.queue ++ [i]) c.lockHeld
    · rw [if_neg hl]
      exact concInv_update_benign c hinv i TaskPc.gotLock (by simp [isOW]) (by simp)
        c.queue true
  | waiting =>
    have hstep : stepTask i c = c := by
      unfold stepTask
      rw [hpc]
    rw [hstep]
    exact hinv
  | done r =>
    have hstep : stepTask i c = c := by
      unfold stepTask
      rw [hpc]
    rw [hstep]
    exact hinv
  | gotLock =>
    cases hdb : c.db with
    | some h =>
      have hstep : stepTask i c = releaseLock
          { c with pcs := Function.update c.pcs i (TaskPc.done (ConnOutcome.ok h)) } := by
        unfold stepTask
        rw [hpc, hdb]
      rw [hstep]
      apply concInv_releaseLock
      have h0 : h = 0 := (hinv.dbSome h hdb).1
      refine @concInv_mono n c _ rfl rfl rfl (Or.inl rfl) ?_ hinv
      intro j
      constructor
      · intro how
        simp only [Function.update_apply] at how
        by_cases hj : j = i
        · rw [if_pos hj] at how
          simp [isOW] at how
        · rw [if_neg hj] at how
          exact how
      · intro h2 hd
        simp only [Function.update_apply] at hd
        by_cases hj : j = i
        · rw [if_pos hj] at hd
          right
          refine ⟨?_, by rw [← h0]; exact hdb⟩
          injection hd with hd1
          injection hd1 with hd2
          omega
        · rw [if_neg hj] at hd
          exact Or.inl hd
    | none =>
      have hstep : stepTask i c =
          { c with
            db := some c.nextHandle
            nextHandle := c.nextHandle + 1
            opens := c.opens + 1
            pcs := Function.update c.pcs i TaskPc.opened } := by
        unfold stepTask
        rw [hpc, hdb]
      rw [hstep]
      obtain ⟨ho, hm, hh, hall⟩ := hinv.dbNone hdb
      refine ⟨?_, ?_, ?_, ?_, ?_, ?_⟩
      · intro hnone
        simp at hnone
      · intro h2 hsome
        refine ⟨?_, by show c.opens + 1 = 1; omega, by show c.nextHandle + 1 = 1; omega⟩
        injection hsome with hs
        omega
      · show c.migrates ≤ 1
        exact hinv.migratesLe
      · intro j _
        show c.migrates = 0
        exact hm
      · intro a b ha hb
        show a = b
        simp only [Function.update_apply] at ha hb
        by_cases hai : a = i
        · by_cases hbi : b = i
          · rw [hai, hbi]
          · rw [if_neg hbi] at hb
            exact absurd hb (hall b).1
        · rw [if_neg hai] at ha
          exact absurd ha (hall a).1
      · intro j h2 hd
        simp only [Function.update_apply] at hd
        by_cases hj : j = i
        · rw [if_pos hj] at hd
          simp at hd
        · rw [if_neg hj] at hd
          exact absurd hd ((hall j).2 h2)
  | opened =>
    have hstep : stepTask i c = { c with pcs := Function.update c.pcs i TaskPc.walDone } := by
      unfold stepTask
      rw [hpc]
    rw [hstep]
    refine @concInv_mono n c _ rfl rfl rfl (Or.inl rfl) ?_ hinv
    intro j
    constructor
    · intro how
      simp only [Function.update_apply] at how
      by_cases hj : j = i
      · rw [hj, hpc]
        exact Or.inl rfl
      · rw [if_neg hj] at how
        exact how
    · intro h2 hd
      simp only [Function.update_apply] at hd
      by_cases hj : j = i
      · rw [if_pos hj] at hd
        simp at hd
      · rw [if_neg hj] at hd
        exact Or.inl hd
  | walDone =>
    have hdb0 : c.db = some 0 := by
      cases hdb : c.db with
      | none =>
        have hcontra := ((hinv.dbNone hdb).2.2.2 i).1
        exact absurd (Or.inr hpc) hcontra
      | some h =>
        rw [(hinv.dbSome h hdb).1]
    have hstep : stepTask i c = releaseLock
        { c with
          migrates := c.migrates + 1
          pcs := Function.update c.pcs i
            (TaskPc.done (ConnOutcome.ok (c.db.getD 0))) } := by
      unfold stepTask
      rw [hpc]
    rw [hstep]
    apply concInv_releaseLock
    have hget : c.db.getD 0 = 0 := by
      rw [hdb0]
      rfl
    have hmig0 : c.migrates = 0 := hinv.owNoMigrate i (Or.inr hpc)
    refine @concInv_mono n c _ rfl rfl rfl (Or.inr ⟨?_, hdb0, ?_⟩) ?_ hinv
    · show c.migrates + 1 = 1
      omega
    · intro j how
      simp only [Function.update_apply] at how
      by_cases hj : j = i
      · rw [if_pos hj] at how
        simp [isOW] at how
      · rw [if_neg hj] at how
        exact absurd (hinv.owUnique j i how (Or.inr hpc)) hj
    · intro j
      constructor
      · intro how
        simp only [Function.update_apply] at how
        by_cases hj : j = i
        · rw [if_pos hj] at how
          simp [isOW] at how
        · rw [if_neg hj] at how
          exact how
      · intro h2 hd
        simp only [Function.update_apply] at hd
        by_cases hj : j = i
        · rw [if_pos hj] at hd
          right
          refine ⟨?_, hdb0⟩
          rw [hget] at hd
          injection hd with hd1
          injection hd1 with hd2
          omega
        · rw [if_neg hj] at hd
          exact Or.inl hd

theorem concInv_run {n : Nat} (sched : List (Fin n)) :
    ∀ c : ConcState n, ConcInv c → ConcInv (runSched sched c) := by
  induction sched with
  | nil => intro c h; exact h
  | cons i sched ih =>
    intro c h
    exact ih _ (concInv_step i c h)

/-- Claim C4: under concurrently overlapping connection() calls on a fresh
instance — arbitrarily many callers, every cooperative interleaving, with
the FIFO-queued lock of section 4.1 — at most one native open and at most
one migrate run ever execute, and all callers whose call completes
successfully resolve to the same underlying connection handle. -/
theorem connection_concurrent_exclusive (n : Nat) (sched : List (Fin n)) :
    (runSched sched (initConc n)).opens ≤ 1 ∧
    (runSched sched (initConc n)).migrates ≤ 1 ∧
    ∀ (i j : Fin n) (hi hj : Nat),
      (runSched sched (initConc n)).pcs i = TaskPc.done (ConnOutcome.ok hi) →
      (runSched sched (initConc n)).pcs j = TaskPc.done (ConnOutcome.ok hj) →
      hi = hj := by
  have hinv := concInv_run sched (initConc n) (concInv_init n)
  refine ⟨?_, hinv.migratesLe, ?_⟩
  · cases hdb : (runSched sched (initConc n)).db with
    | none =>
      have h1 := (hinv.dbNone hdb).1
      omega
    | some h =>
      have h1 := (hinv.dbSome h hdb).2.1
      omega
  · intro i j hi hj hdi hdj
    rw [hinv.doneHandle i hi hdi, hinv.doneHandle j hj hdj]

theorem connection_concurrent_exclusive_witness :
    (runSched ([0, 1, 0, 0, 0, 1] : List (Fin 2)) (initConc 2)).opens ≤ 1 ∧
    (runSched ([0, 1, 0, 0, 0, 1] : List (Fin 2)) (initConc 2)).migrates ≤ 1 ∧
    ∀ (i j : Fin 2) (hi hj : Nat),
      (runSched ([0, 1, 0, 0, 0, 1] : List (Fin 2)) (initConc 2)).pcs i =
        TaskPc.done (ConnOutcome.ok hi) →
      (runSched ([0, 1, 0, 0, 0, 1] : List (Fin 2)) (initConc 2)).pcs j =
        TaskPc.done (ConnOutcome.ok hj) →
      hi = hj :=
  connection_concurrent_exclusive 2 [0, 1, 0, 0, 0, 1]

/- ===== Witnesses for the theorems with hypotheses. ===== -/

def exEnvFail : ScriptEnv Nat :=
  fun q n => if q = "BAD" then .error "boom" else .ok (n + 1)

def exContentBad2 : String := "BAD\n-- Down\nD2"

def exDirC3 : List (String × String) :=
  [("001-a.sql", exContent1), ("002-b.sql", exContentBad2)]

theorem migrate_executes_reference_plan_witness :
    (∃ d, migrate exEnvU (some exDir1) false
        ⟨{ hasLedger := false, ledger := [], schema := () }, none⟩ =
      (.ok (), ⟨d, none⟩, specPlan
        [{ id := 1, name := "a", filename := "001-a.sql", up := "U1", down := "D1" }]
        false ([] : List DbMig))) ∧
    migrate exEnvU (some exDir123) false exState13 = (.ok (), exState13, []) :=
  migrate_executes_reference_plan exEnvU (fun _ x => ⟨x, rfl⟩) (some exDir1) false
    { hasLedger := false, ledger := [], schema := () }
    [{ id := 1, name := "a", filename := "001-a.sql", up := "U1", down := "D1" }]
    (by decide) (by decide)

theorem migrate_action_failure_transactional_witness :
    migrate exEnvFail (some exDirC3) false
      ⟨{ hasLedger := false, ledger := [], schema := 0 }, none⟩ =
      (.error (.sql "boom"),
       ⟨{ hasLedger := true,
          ledger := [{ id := 1, name := "a", up := "U1", down := "D1" }],
          schema := 1 }, none⟩,
       [MigAction.apply { id := 1, name := "a", filename := "001-a.sql",
                          up := "U1", down := "D1" }] ++
         [MigAction.apply { id := 2, name := "b", filename := "002-b.sql",
                            up := "BAD", down := "D2" }]) :=
  migrate_action_failure_transactional exEnvFail (some exDirC3) false
    { hasLedger := false, ledger := [], schema := 0 }
    [{ id := 1, name := "a", filename := "001-a.sql", up := "U1", down := "D1" },
     { id := 2, name := "b", filename := "002-b.sql", up := "BAD", down := "D2" }]
    [MigAction.apply { id := 1, name := "a", filename := "001-a.sql",
                       up := "U1", down := "D1" }]
    (MigAction.apply { id := 2, name := "b", filename := "002-b.sql",
                       up := "BAD", down := "D2" })
    []
    { hasLedger := true,
      ledger := [{ id := 1, name := "a", up := "U1", down := "D1" }], schema := 1 }
    "boom" (by decide) (by decide) (by decide) (by decide)

theorem force_last_reapplies_highest_witness :
    ∃ d, migrate exEnvU (some exDir1) true exStateL1 =
        (.ok (), ⟨d, none⟩, migratePlan
          [{ id := 1, name := "a", filename := "001-a.sql", up := "U1", down := "D1" }]
          true exStateL1.committed.ledger) ∧
      rollbackThenApply (maxIdRows exStateL1.committed.ledger)
        (migratePlan
          [{ id := 1, name := "a", filename := "001-a.sql", up := "U1", down := "D1" }]
          true exStateL1.committed.ledger) = true :=
  force_last_reapplies_highest exEnvU (fun _ x => ⟨x, rfl⟩) (some exDir1)
    exStateL1.committed
    [{ id := 1, name := "a", filename := "001-a.sql", up := "U1", down := "D1" }]
    (by decide) (by decide) (by decide) (by decide) (by decide)

theorem migrate_no_matching_files_noop_witness :
    migrate exEnvU (some [("notes.md", "x")]) false exStateL1 =
      (.ok (), exStateL1, []) ∧
    migrate exEnvU none false exStateL1 = (.error .enoent, exStateL1, []) :=
  ⟨(migrate_no_matching_files_noop exEnvU false exStateL1).1 [("notes.md", "x")]
    (by decide),
   (migrate_no_matching_files_noop exEnvU false exStateL1).2⟩

theorem migrate_malformed_fails_before_db_witness :
    ∃ fname, migrate exEnvU (some exDirBad) false exStateL1 =
        (.error (.malformed fname), exStateL1, []) ∧
      ∃ e ∈ readMigrationEntries (exDirBad.map (fun p => p.1)),
        e.filename = fname ∧ splitUpDown (contentOf exDirBad e.filename) = none :=
  migrate_malformed_fails_before_db exEnvU false exDirBad exStateL1 (by decide)

def exRespOk9 : Nat → CloseResp := fun k => if k < 9 then .busy else .ok

def exRespBusy : Nat → CloseResp := fun _ => .busy

def exInstOpen : DBInst := { options := c1Opts, db := some 5 }

theorem close_busy_retry_budget_witness :
    closeDB exRespOk9 exInstOpen = (.ok (), 450, { exInstOpen with db := none }) ∧
    (closeDB exRespBusy exInstOpen).1 = .error "SQLITE_BUSY" :=
  ⟨close_busy_retry_budget.1 exRespOk9 exInstOpen 5 rfl
    (fun k hk => by
      show (if k < 9 then CloseResp.busy else CloseResp.ok) = CloseResp.busy
      rw [if_pos hk])
    (by decide),
   close_busy_retry_budget.2 exRespBusy exInstOpen 5 rfl (fun _ _ => rfl)⟩
